import Mathlib

/-!
Shallow embedding of the conversation token/cost analyzer
(`src/config.py`, `src/tokenizers.py`, `src/message_ordering.py`,
`src/analyzers.py`, and the aggregation fragment of `src/reporting.py`),
together with theorems settling the frozen claims about it.

Modelling conventions:
* Python floats are modelled as rationals (`ℚ`); every arithmetic
  operation used by the code (sums, division by constants, halving,
  multiplication by the 1.2 thought multiplier) is exact, so the
  algebraic relations the claims state are captured faithfully.
* The external `tiktoken` library is abstracted by a parameter
  `tok : Option String → String → Nat` mapping a model slug and a text
  to a token count; `count_tokens` keeps the source behaviour of
  returning 0 on empty text.  No claim depends on actual token values.
* Python dictionaries are association lists (`List (String × Node)`
  etc.) looked up by first match; Python dict keys are unique, and no
  theorem below depends on duplicate keys.  Where Python iterates over
  a set (root-candidate selection), insertion/key order is used; the
  source's set iteration order is unspecified, and the claims quantify
  over whatever root the function resolves.
* A Python value that may be absent or `None` is an `Option`; string
  truthiness (`if s:`) is `s ≠ ""` on present strings.  An empty dict
  in a `message` slot is falsy in the source and is modelled as
  `none`, which the source treats identically at every use site.
* Exceptions escaping a function (the detailed-mode `KeyError` on a
  cost entry missing a rate key) are `Except.error`; a normal return
  is `Except.ok`.
-/

namespace ChatAnalysis

/-- One entry of a `thoughts` content block: `{summary, content}`. -/
structure Thought where
  summary : String := ""
  content : String := ""
deriving DecidableEq, Repr

/-- A message content block, tagged by `content_type`.  `other` covers a
missing `content`, a missing `content_type` and every unrecognized tag,
all of which contribute 0 tokens in `extract_text_from_message`. -/
inductive Content where
  | text (parts : List String)
  | thoughts (thoughts : List Thought)
  | user_editable_context (user_profile : String) (user_instructions : String)
  | other
deriving DecidableEq, Repr

/-- A message object: the fields of the source dict that the analyzed
code reads.  `author_role` is `message["author"]["role"]` (absent key
defaulted to "unknown" at the read sites), `model_slug` and
`default_model_slug` come from `metadata`, `has_finish_details` is the
presence of the `finish_details` key in `metadata`. -/
structure Message where
  author_role : Option String := none
  content : Content := Content.other
  model_slug : Option String := none
  default_model_slug : Option String := none
  has_finish_details : Bool := false
  recipient : Option String := none
  end_turn : Option Bool := none
deriving DecidableEq, Repr

/-- A node of the conversation mapping: `{message, parent, children}`. -/
structure Node where
  message : Option Message := none
  parent : Option String := none
  children : List String := []
deriving DecidableEq, Repr

/-- The conversation mapping, a dict from node id to node. -/
abbrev Mapping := List (String × Node)

/-- Dict lookup (`mapping.get(k)`): first matching key. -/
def mget (m : Mapping) (k : String) : Option Node :=
  match m with
  | [] => none
  | (k', v) :: rest => if k' = k then some v else mget rest k

/-- The keys of the mapping, in insertion order. -/
def mkeys (m : Mapping) : List String := m.map (fun p => p.1)

/-- Key-membership test (`k in mapping`). -/
def hasKey (m : Mapping) (k : String) : Bool := (mget m k).isSome

/-- Whether node `i` exists and carries a (truthy) `message`. -/
def hasMsg (m : Mapping) (i : String) : Bool :=
  match mget m i with
  | some nd => nd.message.isSome
  | none => false

/-! ## Tokenizer adapter (`src/tokenizers.py`)

`get_tokenizer` resolves a tiktoken encoding from a model slug and
`count_tokens` applies it; both are external-library behaviour and are
abstracted into a single counting function `Tok`. -/

/-- Abstract tokenizer family: slug ↦ text ↦ token count.  Stands for
`count_tokens(text, get_tokenizer(slug))` of the source, whose values
come from the external `tiktoken` library. -/
abbrev Tok := Option String → String → Nat

/-- `count_tokens`: empty (falsy) text counts 0 tokens; otherwise the
tokenizer result (tokenizer failure returning 0 is folded into `tok`). -/
def count_tokens (tok : Tok) (slug : Option String) (text : String) : Nat :=
  if text = "" then 0 else tok slug text

/-! ## Configuration (`src/config.py`) -/

/-- `THOUGHT_CONTENT_MULTIPLIER = 1.2`. -/
def THOUGHT_CONTENT_MULTIPLIER : ℚ := 1.2

/-- One value of a cost table: a dict that may or may not carry the two
per-million rate keys.  `has_other_keys` records whether the dict has
any further keys, which only matters for Python truthiness of the dict
(`if not current_model_costs`). -/
structure CostEntry where
  input_cost_per_million_tokens : Option ℚ := none
  output_cost_per_million_tokens : Option ℚ := none
  has_other_keys : Bool := false
deriving DecidableEq, Repr

/-- A cost table: model identifier ↦ rate dict. -/
abbrev CostConfig := List (String × CostEntry)

/-- Cost-table lookup (`costs_config.get(k)`). -/
def cget (cfg : CostConfig) (k : String) : Option CostEntry :=
  match cfg with
  | [] => none
  | (k', v) :: rest => if k' = k then some v else cget rest k

/-- Python truthiness of a rate dict: nonempty. -/
def entryTruthy (e : CostEntry) : Bool :=
  e.input_cost_per_million_tokens.isSome ||
    e.output_cost_per_million_tokens.isSome || e.has_other_keys

/-- `DEFAULT_MODEL_COSTS["o3"]` (10.0 in, 40.0 out). -/
def o3DefaultEntry : CostEntry :=
  { input_cost_per_million_tokens := some 10
    output_cost_per_million_tokens := some 40 }

/-- `DEFAULT_MODEL_COSTS` from `src/config.py` (2.5 = 5/2). -/
def DEFAULT_MODEL_COSTS : CostConfig :=
  [("gpt-4o", { input_cost_per_million_tokens := some (5/2)
                output_cost_per_million_tokens := some 10 }),
   ("research", { input_cost_per_million_tokens := some 10
                  output_cost_per_million_tokens := some 40 }),
   ("o3", o3DefaultEntry),
   ("o1-pro", { input_cost_per_million_tokens := some 150
                output_cost_per_million_tokens := some 600 }),
   ("gpt-4-5", { input_cost_per_million_tokens := some 75
                 output_cost_per_million_tokens := some 150 }),
   ("o1", { input_cost_per_million_tokens := some 15
            output_cost_per_million_tokens := some 60 }),
   ("o1-preview", { input_cost_per_million_tokens := some 15
                    output_cost_per_million_tokens := some 60 })]

/-! ## Message content extractor (`src/tokenizers.py`,
`extract_text_from_message`)

Only the token total is modelled: every call site of the source
discards the text-fragment list (`_, tokens = extract_text_from_message(...)`). -/

/-- Token total of `extract_text_from_message(message_data, count_thoughts)`.
The tokenizer is selected from the message's own `model_slug`. -/
def extract_text_from_message (tok : Tok) (message_data : Node)
    (count_thoughts : Bool) : ℚ :=
  match message_data.message with
  | none => 0
  | some message =>
    let slug := message.model_slug
    match message.content with
    | Content.text parts =>
      match parts with
      | [] => 0
      | _ => (count_tokens tok slug (String.join parts) : ℚ)
    | Content.thoughts ts =>
      if count_thoughts then
        ts.foldl (fun acc t =>
          (acc + (if t.summary ≠ "" then (count_tokens tok slug t.summary : ℚ) else 0))
            + (if t.content ≠ ""
               then (count_tokens tok slug t.content : ℚ) * THOUGHT_CONTENT_MULTIPLIER
               else 0)) 0
      else 0
    | Content.user_editable_context up ui =>
      (if up ≠ "" then (count_tokens tok slug up : ℚ) else 0)
        + (if ui ≠ "" then (count_tokens tok slug ui : ℚ) else 0)
    | Content.other => 0

/-! ## Thread linearizer (`src/message_ordering.py`,
`get_message_chronological_order`) -/

/-- Whether an id looks like a generated GUID: length 36 with four
dashes (`len(r) == 36 and r.count("-") == 4`). -/
def isGuidLike (s : String) : Bool :=
  s.length == 36 && (s.toList.filter (fun c => c == '-')).length == 4

/-- Whether node `i` has a truthy `parent` that is itself a key of the
mapping (`parent_id and parent_id in all_ids`). -/
def hasValidParent (m : Mapping) (i : String) : Bool :=
  match mget m i with
  | none => false
  | some nd =>
    match nd.parent with
    | none => false
    | some p => (p != "") && hasKey m p

/-- Root resolution (source lines 13-37): prefer the literal key
`client-created-root`; otherwise the first root candidate (a key with
no valid parent), preferring non-GUID-looking candidates.  `none`
corresponds to the `return []` paths. -/
def findRootId (m : Mapping) : Option String :=
  if hasKey m "client-created-root" then some "client-created-root"
  else
    match (mkeys m).filter (fun i => !(hasValidParent m i)) with
    | [] => none
    | roots =>
      match roots.filter (fun r => !(isGuidLike r)) with
      | r :: _ => some r
      | [] => roots.head?

/-- The node the traversal starts from: the first child of the
synthetic `client-created-root` (none if it has no children), or the
resolved root itself. -/
def resolveStart (m : Mapping) : Option String :=
  match findRootId m with
  | none => none
  | some root =>
    if root == "client-created-root" then
      match mget m root with
      | none => none
      | some nd => nd.children.head?
    else some root

/-- The successor of `c` on the main path: `children[0]`, provided the
loop would still be running at `c` (current id truthy and present with
a nonempty `children` list). -/
def succNode (m : Mapping) (c : String) : Option String :=
  if c == "" then none
  else
    match mget m c with
    | none => none
    | some nd => nd.children.head?

/-- The first-children walk from `cur`, truncated to `fuel` steps. -/
def walk (m : Mapping) (fuel : Nat) (cur : Option String) : List String :=
  match fuel, cur with
  | 0, _ => []
  | _ + 1, none => []
  | n + 1, some c => c :: walk m n (succNode m c)

/-- The `while current_id:` loop (source lines 98-118), made total with
a fuel parameter.  Each non-breaking iteration takes `children[0]`,
breaks on a visited id, appends message-bearing ids to the output and
records the step in the visited set. -/
def linLoop (m : Mapping) (fuel : Nat) (ordered visited : List String)
    (cur : String) : List String :=
  match fuel with
  | 0 => ordered
  | f + 1 =>
    if cur == "" then ordered
    else
      match mget m cur with
      | none => ordered
      | some nd =>
        match nd.children with
        | [] => ordered
        | nx :: _ =>
          if visited.contains nx then ordered
          else
            linLoop m f (if hasMsg m nx then ordered ++ [nx] else ordered)
              (nx :: visited) nx

/-- `get_message_chronological_order` with explicit fuel for the while
loop.  Mirrors the source: in the `client-created-root` branch the
start node is appended (if message-bearing) and entered into the
visited set (lines 92-96); in the fallback-root branch the root is
appended at line 81, so the line-92 guard skips it and the visited set
stays empty. -/
def chronologicalOrderFuel (m : Mapping) (fuel : Nat) : List String :=
  match findRootId m with
  | none => []
  | some root =>
    if root == "client-created-root" then
      match mget m root with
      | none => []
      | some nd =>
        match nd.children with
        | [] => []
        | c0 :: _ =>
          let ordered0 := if hasMsg m c0 then [c0] else []
          linLoop m fuel ordered0 ordered0 c0
    else
      let ordered0 := if hasMsg m root then [root] else []
      linLoop m fuel ordered0 [] root

/-- `get_message_chronological_order(conversation_mapping)`.  The loop
runs at most `|mapping| + 1` iterations before a break condition holds
(each iteration permanently marks a fresh id visited, and all but the
last such id are keys of the mapping), so `|mapping| + 2` fuel is
exact; the stabilization theorem below proves this bound. -/
def get_message_chronological_order (conversation_mapping : Mapping) : List String :=
  chronologicalOrderFuel conversation_mapping (conversation_mapping.length + 2)

/-! ## Analyzer (`src/analyzers.py`) -/

/-- `identify_model_from_metadata(message)` (source lines 8-40): the
display label for a message's model. -/
def identify_model_from_metadata (message : Message) : String :=
  match message.model_slug with
  | some s =>
    if s ≠ "" then s
    else identifyModelFallback message
  | none => identifyModelFallback message
where
  /-- Fallback chain after a falsy `model_slug`. -/
  identifyModelFallback (message : Message) : String :=
    match message.default_model_slug with
    | some s =>
      if s ≠ "" then s ++ " (default)"
      else identifyModelFallback2 message
    | none => identifyModelFallback2 message
  /-- Fallback chain after a falsy `default_model_slug`. -/
  identifyModelFallback2 (message : Message) : String :=
    if message.has_finish_details then "Unknown API Model"
    else
      match message.recipient with
      | some r => if r ≠ "" ∧ r ≠ "all" then "Tool: " ++ r else "N/A"
      | none => "N/A"

/-- A message-bearing element of the linearized order: its id, its
mapping node and its message. -/
structure MsgEntry where
  id : String
  node : Node
  msg : Message
deriving DecidableEq, Repr

/-- The message-bearing data of id `i`, if any (`mapping.get(msg_id)`
followed by the `if not msg_data or not msg_data.get("message")` skip). -/
def msgEntryOf (m : Mapping) (i : String) : Option MsgEntry :=
  match mget m i with
  | none => none
  | some nd =>
    match nd.message with
    | none => none
    | some msg => some ⟨i, nd, msg⟩

/-- The message-bearing entries of an id sequence, in order. -/
def msgBearing (m : Mapping) (ids : List String) : List MsgEntry :=
  ids.filterMap (msgEntryOf m)

/-- `count_real_turns(mapping, ordered_message_ids)` (source lines
43-67): counts messages with `end_turn` literally `True`. -/
def count_real_turns (mapping : Mapping) (ordered_message_ids : List String) : Nat :=
  match ordered_message_ids with
  | [] => 0
  | i :: rest =>
    (match msgEntryOf mapping i with
     | some e => if e.msg.end_turn == some true then 1 else 0
     | none => 0) + count_real_turns mapping rest

/-- Detailed-mode cost-rate resolution for one message (source lines
226-234): the entry for the message's own slug, else the table's `o3`
entry, else — when that is falsy — the table's first value, or
`DEFAULT_MODEL_COSTS["o3"]` for an empty table. -/
def resolveCostEntry (cfg : CostConfig) (slug : Option String) : CostEntry :=
  let c1 : Option CostEntry :=
    match slug with
    | some s =>
      match cget cfg s with
      | some e => some e
      | none => cget cfg "o3"
    | none => cget cfg "o3"
  match c1 with
  | some e => if entryTruthy e then e else fallbackCostEntry cfg
  | none => fallbackCostEntry cfg
where
  /-- `list(costs_config.values())[0] if costs_config else DEFAULT_MODEL_COSTS["o3"]`. -/
  fallbackCostEntry (cfg : CostConfig) : CostEntry :=
    match cfg with
    | [] => o3DefaultEntry
    | (_, v) :: _ => v

/-- One `turns_details` record (one per assistant message). -/
structure TurnDetail where
  assistant_message_id : String
  turn_index : Nat
  input_tokens : ℚ
  output_tokens : ℚ
  input_cost : ℚ
  output_cost : ℚ
  turn_total_cost : ℚ
  model_slug : String
  input_discounted : Bool
  is_turn_end : Bool
deriving DecidableEq, Repr

/-- The running state of the detailed-mode loop (source lines 190-310):
`history_for_inputs`, the assistant-message counter, `current_turn_index`
and the conversation-level accumulators. -/
structure DetState where
  history : List (String × String × ℚ) := []
  assistantCount : Nat := 0
  turnIndex : Nat := 0
  totalInput : ℚ := 0
  totalOutput : ℚ := 0
  totalCost : ℚ := 0
  turns : List TurnDetail := []
deriving DecidableEq, Repr

/-- Detailed-mode processing of one message-bearing entry (the body of
the loop at source lines 213-310).  A cost entry missing a rate key
raises `KeyError` at the subscript (lines 264 and 276), modelled as
`Except.error`; the output-rate subscript is evaluated first. -/
def processMsg (cfg : CostConfig) (tok : Tok) (st : DetState) (e : MsgEntry) :
    Except String DetState :=
  let message := e.msg
  let author_role := message.author_role.getD "unknown"
  let current_model_costs := resolveCostEntry cfg message.model_slug
  let current_message_output_tokens := extract_text_from_message tok e.node true
  let current_message_tokens_for_history := extract_text_from_message tok e.node false
  let history1 := st.history ++ [(e.id, author_role, current_message_tokens_for_history)]
  let assistantCount1 :=
    if author_role == "assistant" then st.assistantCount + 1 else st.assistantCount
  let is_turn_end := message.end_turn == some true
  let turnIndex1 := if is_turn_end then st.turnIndex + 1 else st.turnIndex
  if author_role == "assistant" then
    match current_model_costs.output_cost_per_million_tokens with
    | none => Except.error "KeyError: output_cost_per_million_tokens"
    | some out_rate =>
      let output_tokens := current_message_output_tokens
      let output_cost := output_tokens / 1000000 * out_rate
      let input_tokens_for_this_msg := (history1.dropLast.map (fun h => h.2.2)).sum
      match current_model_costs.input_cost_per_million_tokens with
      | none => Except.error "KeyError: input_cost_per_million_tokens"
      | some in_rate =>
        let input_cost_rate := if st.turnIndex > 0 then in_rate / 2 else in_rate
        let input_cost := input_tokens_for_this_msg / 1000000 * input_cost_rate
        let msg_cost := input_cost + output_cost
        let detail : TurnDetail :=
          { assistant_message_id := e.id
            turn_index := st.turnIndex
            input_tokens := input_tokens_for_this_msg
            output_tokens := output_tokens
            input_cost := input_cost
            output_cost := output_cost
            turn_total_cost := msg_cost
            model_slug := identify_model_from_metadata message
            input_discounted := decide (st.turnIndex > 0)
            is_turn_end := is_turn_end }
        Except.ok
          { history := history1
            assistantCount := assistantCount1
            turnIndex := turnIndex1
            totalInput := st.totalInput + input_tokens_for_this_msg
            totalOutput := st.totalOutput + output_tokens
            totalCost := st.totalCost + msg_cost
            turns := st.turns ++ [detail] }
  else
    Except.ok { st with history := history1, assistantCount := assistantCount1,
                        turnIndex := turnIndex1 }

/-- The detailed-mode loop over message-bearing entries. -/
def detFold (cfg : CostConfig) (tok : Tok) :
    DetState → List MsgEntry → Except String DetState
  | st, [] => Except.ok st
  | st, e :: es =>
    match processMsg cfg tok st e with
    | Except.error err => Except.error err
    | Except.ok st1 => detFold cfg tok st1 es

/-- The detailed-mode loop over the ordered id list, skipping ids with
no node or no message. -/
def detFoldIds (cfg : CostConfig) (tok : Tok) (m : Mapping) :
    DetState → List String → Except String DetState
  | st, [] => Except.ok st
  | st, i :: ids =>
    match msgEntryOf m i with
    | none => detFoldIds cfg tok m st ids
    | some e =>
      match processMsg cfg tok st e with
      | Except.error err => Except.error err
      | Except.ok st1 => detFoldIds cfg tok m st1 ids

/-- Per-role token accumulators of simple mode. -/
structure SimpleTotals where
  user : ℚ := 0
  assistant : ℚ := 0
  system : ℚ := 0
deriving DecidableEq, Repr

/-- The simple-mode loop (source lines 107-125): thoughts are counted
for assistant messages only. -/
def simpleFoldIds (tok : Tok) (m : Mapping) :
    SimpleTotals → List String → SimpleTotals
  | t, [] => t
  | t, i :: ids =>
    match msgEntryOf m i with
    | none => simpleFoldIds tok m t ids
    | some e =>
      let role := e.msg.author_role.getD "unknown"
      let t1 :=
        if role == "user" then
          { t with user := t.user + extract_text_from_message tok e.node false }
        else if role == "assistant" then
          { t with assistant := t.assistant + extract_text_from_message tok e.node true }
        else if role == "system" then
          { t with system := t.system + extract_text_from_message tok e.node false }
        else t
      simpleFoldIds tok m t1 ids

/-- Simple-mode rate resolution (source lines 134-149): the key tried
and the rates found, after the `o3` → first-table-entry →
`DEFAULT_MODEL_COSTS["o3"]` fallback chain (each fallback taken when
the previous result is falsy). -/
def simpleRateResolution (cfg : CostConfig) : String × Option CostEntry :=
  let r0 := cget cfg "o3"
  if entryTruthyOpt r0 then ("o3", r0)
  else
    let kr1 : String × Option CostEntry :=
      match cfg with
      | [] => ("o3", r0)
      | (k, v) :: _ => (k, some v)
    if entryTruthyOpt kr1.2 then kr1
    else ("o3", cget DEFAULT_MODEL_COSTS "o3")
where
  /-- Truthiness of `costs_config.get(...)`: present and nonempty. -/
  entryTruthyOpt (r : Option CostEntry) : Bool :=
    match r with
    | some e => entryTruthy e
    | none => false

/-- A per-conversation result tagged with an error string (the
soft-failure returns at source lines 81-87 and 91-97). -/
structure ErrorResult where
  title : String
  create_time_ts : Option ℚ
  update_time_ts : Option ℚ
  error : String
  mode : String
deriving DecidableEq, Repr

/-- The simple-mode result dict (source lines 171-187). -/
structure SimpleResult where
  title : String
  create_time_ts : Option ℚ
  update_time_ts : Option ℚ
  real_turns_count : Nat
  message_count : Nat
  simple_total_user_tokens : ℚ
  simple_total_assistant_tokens : ℚ
  simple_total_system_tokens : ℚ
  simple_total_input_tokens : ℚ
  simple_total_output_tokens : ℚ
  simple_input_cost : ℚ
  simple_output_cost : ℚ
  simple_total_cost : ℚ
  simple_cost_model_key : String
deriving DecidableEq, Repr

/-- The detailed-mode result dict (source lines 312-324). -/
structure DetailedResult where
  title : String
  create_time_ts : Option ℚ
  update_time_ts : Option ℚ
  total_input_tokens_across_turns : ℚ
  total_output_tokens_for_all_assistant_msgs : ℚ
  total_cost : ℚ
  real_turns_count : Nat
  assistant_messages_count : Nat
  turns_details : List TurnDetail
  message_count : Nat
deriving DecidableEq, Repr

/-- The analyzer's return value: an error-tagged, a simple-mode or a
detailed-mode result (distinguished in the source by which keys the
returned dict carries). -/
inductive AnalysisResult where
  | error (r : ErrorResult)
  | simple (r : SimpleResult)
  | detailed (r : DetailedResult)
deriving DecidableEq, Repr

/-- A conversation record, as read by the analyzer. -/
structure Conversation where
  title : Option String := none
  create_time : Option ℚ := none
  update_time : Option ℚ := none
  mapping : Mapping := []
deriving DecidableEq, Repr

/-- `analyze_conversation_tokens_and_costs(conversation, costs_config,
mode)` (source lines 70-324).  `Except.error` is an uncaught exception
escaping the call; `Except.ok` is a normal return.  Simple-mode cost
usability check (`rates and both keys present`, line 151-155) is the
inner match: an entry with both rate keys is necessarily truthy. -/
def analyze_conversation_tokens_and_costs (conversation : Conversation)
    (costs_config : CostConfig) (mode : String) (tok : Tok) :
    Except String AnalysisResult :=
  let title := conversation.title.getD "N/A"
  let mapping := conversation.mapping
  if mapping.isEmpty then
    Except.ok (AnalysisResult.error
      ⟨title, conversation.create_time, conversation.update_time,
       "No message mapping found", mode⟩)
  else
    let ordered := get_message_chronological_order mapping
    if ordered.isEmpty then
      Except.ok (AnalysisResult.error
        ⟨title, conversation.create_time, conversation.update_time,
         "Could not determine message order or no messages", mode⟩)
    else
      let real_turns_count := count_real_turns mapping ordered
      if mode == "simple" then
        let t := simpleFoldIds tok mapping {} ordered
        let inputTotal := t.user + t.system
        let outputTotal := t.assistant
        let kr := simpleRateResolution costs_config
        let zeroResult : AnalysisResult :=
          AnalysisResult.simple
            { title := title
              create_time_ts := conversation.create_time
              update_time_ts := conversation.update_time
              real_turns_count := real_turns_count
              message_count := ordered.length
              simple_total_user_tokens := t.user
              simple_total_assistant_tokens := t.assistant
              simple_total_system_tokens := t.system
              simple_total_input_tokens := inputTotal
              simple_total_output_tokens := outputTotal
              simple_input_cost := 0
              simple_output_cost := 0
              simple_total_cost := 0
              simple_cost_model_key := kr.1 ++ " (rates not found/incomplete)" }
        match kr.2 with
        | none => Except.ok zeroResult
        | some e =>
          match e.input_cost_per_million_tokens, e.output_cost_per_million_tokens with
          | some ir, some orr =>
            let simple_input_cost := inputTotal / 1000000 * ir
            let simple_output_cost := outputTotal / 1000000 * orr
            Except.ok (AnalysisResult.simple
              { title := title
                create_time_ts := conversation.create_time
                update_time_ts := conversation.update_time
                real_turns_count := real_turns_count
                message_count := ordered.length
                simple_total_user_tokens := t.user
                simple_total_assistant_tokens := t.assistant
                simple_total_system_tokens := t.system
                simple_total_input_tokens := inputTotal
                simple_total_output_tokens := outputTotal
                simple_input_cost := simple_input_cost
                simple_output_cost := simple_output_cost
                simple_total_cost := simple_input_cost + simple_output_cost
                simple_cost_model_key := kr.1 })
          | _, _ => Except.ok zeroResult
      else
        match detFoldIds costs_config tok mapping {} ordered with
        | Except.error err => Except.error err
        | Except.ok st =>
          Except.ok (AnalysisResult.detailed
            { title := title
              create_time_ts := conversation.create_time
              update_time_ts := conversation.update_time
              total_input_tokens_across_turns := st.totalInput
              total_output_tokens_for_all_assistant_msgs := st.totalOutput
              total_cost := st.totalCost
              real_turns_count := real_turns_count
              assistant_messages_count := st.assistantCount
              turns_details := st.turns
              message_count := ordered.length })

/-! ## Aggregation (`src/reporting.py`, lines 53-79)

Only the numeric summary of the detailed branch is modelled; it is what
claim C7's "numeric aggregation" refers to. -/

/-- Whether a result carries the `error` key. -/
def is_error_result : AnalysisResult → Bool
  | AnalysisResult.error _ => true
  | _ => false

/-- `valid_results`: the results without an error marker. -/
def valid_results (rs : List AnalysisResult) : List AnalysisResult :=
  rs.filter (fun r => !(is_error_result r))

/-- `result.get("total_input_tokens_across_turns", 0)`. -/
def resultTotalInput : AnalysisResult → ℚ
  | AnalysisResult.detailed r => r.total_input_tokens_across_turns
  | _ => 0

/-- `result.get("total_output_tokens_for_all_assistant_msgs", 0)`. -/
def resultTotalOutput : AnalysisResult → ℚ
  | AnalysisResult.detailed r => r.total_output_tokens_for_all_assistant_msgs
  | _ => 0

/-- `result.get("total_cost", 0)`. -/
def resultTotalCost : AnalysisResult → ℚ
  | AnalysisResult.detailed r => r.total_cost
  | _ => 0

/-- The detailed-mode global summary sums (total input tokens, total
output tokens, total cost), computed over the valid results only. -/
def report_summary_totals (rs : List AnalysisResult) : ℚ × ℚ × ℚ :=
  (((valid_results rs).map resultTotalInput).sum,
   ((valid_results rs).map resultTotalOutput).sum,
   ((valid_results rs).map resultTotalCost).sum)

/-! ## Abbreviations used by the theorems

Each is a name for an expression of the embedded source, introduced so
the loop invariants can be stated compactly. -/

/-- The tuple appended to `history_for_inputs` for entry `e`. -/
def histEntry (tok : Tok) (e : MsgEntry) : String × String × ℚ :=
  (e.id, e.msg.author_role.getD "unknown", extract_text_from_message tok e.node false)

/-- Whether the entry's author role is "assistant". -/
def isAssistantE (e : MsgEntry) : Bool :=
  e.msg.author_role.getD "unknown" == "assistant"

/-- The turn-index increment contributed by entry `e`. -/
def endInc (e : MsgEntry) : Nat :=
  if e.msg.end_turn == some true then 1 else 0

/-- Total turn-index increment of an entry list. -/
def endTurnCount (es : List MsgEntry) : Nat := (es.map endInc).sum

/-- The input-token sum read off a history list. -/
def detailInputTokens (hist : List (String × String × ℚ)) : ℚ :=
  (hist.map (fun h => h.2.2)).sum

/-- The `turns_details` record the detailed loop emits for assistant
entry `e` when the history so far is `hist`, the turn index is `ti`
and the resolved rates are `ir`/`orr`. -/
def specDetail (tok : Tok) (e : MsgEntry) (hist : List (String × String × ℚ))
    (ti : Nat) (ir orr : ℚ) : TurnDetail :=
  let inputT := detailInputTokens hist
  let outT := extract_text_from_message tok e.node true
  let irate := if ti > 0 then ir / 2 else ir
  let ic := inputT / 1000000 * irate
  let oc := outT / 1000000 * orr
  { assistant_message_id := e.id
    turn_index := ti
    input_tokens := inputT
    output_tokens := outT
    input_cost := ic
    output_cost := oc
    turn_total_cost := ic + oc
    model_slug := identify_model_from_metadata e.msg
    input_discounted := decide (ti > 0)
    is_turn_end := e.msg.end_turn == some true }

/-- Whether simple-mode rate resolution found an entry with both rate
keys (the condition of source lines 151-155; an entry with both keys
is automatically truthy). -/
def usableSimpleRates (cfg : CostConfig) : Bool :=
  match (simpleRateResolution cfg).2 with
  | some e => e.input_cost_per_million_tokens.isSome &&
      e.output_cost_per_million_tokens.isSome
  | none => false

/-- The fuel bound that makes `linLoop` stabilize, as a function of the
already-visited set: the number of not-yet-visited keys plus two. -/
def freshBound (m : Mapping) (v : List String) : Nat :=
  ((mkeys m).filter (fun k => !(v.contains k))).length + 2

/-! ## Concrete data for the witness theorems -/

/-- A concrete tokenizer: string length. -/
def tok0 : Tok := fun _ s => s.length

/-- A user message "Hi". -/
def msgU : Message :=
  { author_role := some "user", content := Content.text ["Hi"], end_turn := some false }

/-- An assistant message "Hello" on model `o3`, ending its turn. -/
def msgA : Message :=
  { author_role := some "assistant", content := Content.text ["Hello"],
    model_slug := some "o3", end_turn := some true }

/-- A second-turn user message. -/
def msgU2 : Message :=
  { author_role := some "user", content := Content.text ["How are you"],
    end_turn := some false }

/-- A second-turn assistant message, ending its turn. -/
def msgA2 : Message :=
  { author_role := some "assistant", content := Content.text ["Fine thanks"],
    model_slug := some "o3", end_turn := some true }

/-- A well-formed one-turn tree: `client-created-root → u1 → a1`. -/
def treeMap : Mapping :=
  [("client-created-root", { message := none, children := ["u1"] }),
   ("u1", { message := some msgU, parent := some "client-created-root",
            children := ["a1"] }),
   ("a1", { message := some msgA, parent := some "u1", children := [] })]

/-- A well-formed two-turn tree: root → u1 → a1 → u2 → a2. -/
def twoTurnMap : Mapping :=
  [("client-created-root", { message := none, children := ["u1"] }),
   ("u1", { message := some msgU, parent := some "client-created-root",
            children := ["a1"] }),
   ("a1", { message := some msgA, parent := some "u1", children := ["u2"] }),
   ("u2", { message := some msgU2, parent := some "a1", children := ["a2"] }),
   ("a2", { message := some msgA2, parent := some "u2", children := [] })]

/-- A cyclic mapping without a synthetic root: A → B → A. -/
def cycleMap : Mapping :=
  [("A", { message := some msgU, parent := none, children := ["B"] }),
   ("B", { message := some msgA, parent := some "A", children := ["A"] })]

/-- A one-turn conversation over `treeMap`. -/
def oneTurnConv : Conversation := { title := some "t", mapping := treeMap }

/-- A two-turn conversation over `twoTurnMap`. -/
def twoTurnConv : Conversation := { title := some "t2", mapping := twoTurnMap }

/-- A conversation with no message mapping. -/
def emptyConv : Conversation := { title := some "e" }

/-- A cost table with a usable `o3` entry. -/
def cfg0 : CostConfig := [("o3", o3DefaultEntry)]

/-- A cost table whose only entry is truthy but lacks the output-rate
key. -/
def badCfg : CostConfig := [("o3", { input_cost_per_million_tokens := some 10 })]

/-- The `turns_details` record of `oneTurnConv` under `cfg0`/`tok0`. -/
def oneTurnDetail : TurnDetail :=
  { assistant_message_id := "a1", turn_index := 0, input_tokens := 2,
    output_tokens := 5, input_cost := 1/50000, output_cost := 1/5000,
    turn_total_cost := 11/50000, model_slug := "o3", input_discounted := false,
    is_turn_end := true }

/-- The detailed result of `oneTurnConv` under `cfg0`/`tok0`. -/
def oneTurnDetailed : DetailedResult :=
  { title := "t", create_time_ts := none, update_time_ts := none,
    total_input_tokens_across_turns := 2,
    total_output_tokens_for_all_assistant_msgs := 5,
    total_cost := 11/50000, real_turns_count := 1, assistant_messages_count := 1,
    turns_details := [oneTurnDetail], message_count := 2 }

/-- The simple result of `oneTurnConv` under `cfg0`/`tok0`. -/
def oneTurnSimple : SimpleResult :=
  { title := "t", create_time_ts := none, update_time_ts := none,
    real_turns_count := 1, message_count := 2,
    simple_total_user_tokens := 2, simple_total_assistant_tokens := 5,
    simple_total_system_tokens := 0, simple_total_input_tokens := 2,
    simple_total_output_tokens := 5, simple_input_cost := 1/50000,
    simple_output_cost := 1/5000, simple_total_cost := 11/50000,
    simple_cost_model_key := "o3" }

/-- The simple result of `oneTurnConv` under `badCfg`/`tok0`: zero cost
and an annotated model key. -/
def badCfgSimple : SimpleResult :=
  { title := "t", create_time_ts := none, update_time_ts := none,
    real_turns_count := 1, message_count := 2,
    simple_total_user_tokens := 2, simple_total_assistant_tokens := 5,
    simple_total_system_tokens := 0, simple_total_input_tokens := 2,
    simple_total_output_tokens := 5, simple_input_cost := 0,
    simple_output_cost := 0, simple_total_cost := 0,
    simple_cost_model_key := "o3 (rates not found/incomplete)" }

/-- First `turns_details` record of `twoTurnConv` (turn 0, full rate). -/
def twoTurnDetail1 : TurnDetail :=
  { assistant_message_id := "a1", turn_index := 0, input_tokens := 2,
    output_tokens := 5, input_cost := 1/50000, output_cost := 1/5000,
    turn_total_cost := 11/50000, model_slug := "o3", input_discounted := false,
    is_turn_end := true }

/-- Second `turns_details` record of `twoTurnConv` (turn 1, half rate:
18 tokens × (10/2)/1e6 = 9/100000). -/
def twoTurnDetail2 : TurnDetail :=
  { assistant_message_id := "a2", turn_index := 1, input_tokens := 18,
    output_tokens := 11, input_cost := 9/100000, output_cost := 11/25000,
    turn_total_cost := 53/100000, model_slug := "o3", input_discounted := true,
    is_turn_end := true }

/-- The detailed result of `twoTurnConv` under `cfg0`/`tok0`. -/
def twoTurnDetailed : DetailedResult :=
  { title := "t2", create_time_ts := none, update_time_ts := none,
    total_input_tokens_across_turns := 20,
    total_output_tokens_for_all_assistant_msgs := 16,
    total_cost := 3/4000, real_turns_count := 2, assistant_messages_count := 2,
    turns_details := [twoTurnDetail1, twoTurnDetail2], message_count := 4 }

/-- A thoughts-content message for the C3 witness. -/
def msgThoughts : Message :=
  { author_role := some "assistant",
    content := Content.thoughts [{ summary := "sum", content := "think hard" },
                                 { summary := "", content := "more" }],
    model_slug := some "o3", end_turn := some true }

/-- A node holding `msgThoughts`. -/
def nodeThoughts : Node := { message := some msgThoughts }

/-- The detailed-loop state after processing `treeMap`'s two messages. -/
def oneTurnState : DetState :=
  { history := [("u1", "user", 2), ("a1", "assistant", 5)], assistantCount := 1,
    turnIndex := 1, totalInput := 2, totalOutput := 5, totalCost := 11/50000,
    turns := [oneTurnDetail] }

/-! ## General lemmas -/

theorem foldl_two_adds_eq_sum (f g : Thought → ℚ) (ts : List Thought) (a : ℚ) :
    ts.foldl (fun acc t => (acc + f t) + g t) a
      = a + (ts.map (fun t => f t + g t)).sum := by
  induction ts generalizing a with
  | nil => simp
  | cons t ts ih => simp only [List.foldl_cons, ih, List.map_cons, List.sum_cons]; ring

/-! ## Claim C3: thought token accounting -/

/-- C3: for every message node whose content is a `thoughts` block,
extraction with `count_thoughts = true` totals, per thought entry, the
summary's token count (unmultiplied, when the summary is non-empty)
plus the content's token count times `THOUGHT_CONTENT_MULTIPLIER`
(when the content is non-empty); with `count_thoughts = false` the
thoughts contribute exactly 0 tokens. -/
theorem claim_C3_thought_multiplier (tok : Tok) (nd : Node) (msg : Message)
    (ts : List Thought) (hmsg : nd.message = some msg)
    (hct : msg.content = Content.thoughts ts) :
    extract_text_from_message tok nd true =
      (ts.map (fun t =>
        (if t.summary ≠ "" then (count_tokens tok msg.model_slug t.summary : ℚ) else 0) +
          (if t.content ≠ ""
           then (count_tokens tok msg.model_slug t.content : ℚ) * THOUGHT_CONTENT_MULTIPLIER
           else 0))).sum ∧
    extract_text_from_message tok nd false = 0 := by
  constructor
  · simp only [extract_text_from_message, hmsg, hct, if_true]
    rw [foldl_two_adds_eq_sum]
    simp
  · simp [extract_text_from_message, hmsg, hct]

/-- Witness for C3: a two-entry thoughts message under the length
tokenizer totals 3 + 10·1.2 + 4·1.2 = 99/5 with thoughts counted, and
0 without. -/
theorem claim_C3_witness :
    extract_text_from_message tok0 nodeThoughts true = 99/5 ∧
    extract_text_from_message tok0 nodeThoughts false = 0 := by
  have h := claim_C3_thought_multiplier tok0 nodeThoughts msgThoughts
    [{ summary := "sum", content := "think hard" }, { summary := "", content := "more" }]
    rfl rfl
  obtain ⟨h1, h2⟩ := h
  refine ⟨?_, h2⟩
  rw [h1]
  simp +decide [count_tokens, tok0, msgThoughts, THOUGHT_CONTENT_MULTIPLIER,
    show "sum".length = 3 from rfl, show "think hard".length = 10 from rfl,
    show "more".length = 4 from rfl]
  norm_num

/-! ## Detailed-mode loop invariants -/

theorem processMsg_not_assistant (cfg : CostConfig) (tok : Tok) (st : DetState)
    (e : MsgEntry) (h : isAssistantE e = false) :
    processMsg cfg tok st e = Except.ok
      { st with history := st.history ++ [histEntry tok e],
                turnIndex := st.turnIndex + endInc e } := by
  simp only [isAssistantE] at h
  unfold processMsg
  cases hET : (e.msg.end_turn == some true) <;>
    simp [h, hET, histEntry, endInc]

theorem processMsg_assistant_rates (cfg : CostConfig) (tok : Tok) (st : DetState)
    (e : MsgEntry) (ir orr : ℚ) (h : isAssistantE e = true)
    (hir : (resolveCostEntry cfg e.msg.model_slug).input_cost_per_million_tokens = some ir)
    (horr : (resolveCostEntry cfg e.msg.model_slug).output_cost_per_million_tokens = some orr) :
    processMsg cfg tok st e = Except.ok
      { history := st.history ++ [histEntry tok e]
        assistantCount := st.assistantCount + 1
        turnIndex := st.turnIndex + endInc e
        totalInput := st.totalInput + detailInputTokens st.history
        totalOutput := st.totalOutput + extract_text_from_message tok e.node true
        totalCost := st.totalCost + (specDetail tok e st.history st.turnIndex ir orr).turn_total_cost
        turns := st.turns ++ [specDetail tok e st.history st.turnIndex ir orr] } := by
  simp only [isAssistantE] at h
  unfold processMsg specDetail detailInputTokens histEntry endInc
  cases hET : (e.msg.end_turn == some true) <;>
    simp [h, hET, hir, horr, List.dropLast_concat]

theorem processMsg_ok_rates (cfg : CostConfig) (tok : Tok) (st st' : DetState)
    (e : MsgEntry) (h : isAssistantE e = true)
    (hok : processMsg cfg tok st e = Except.ok st') :
    ∃ ir orr,
      (resolveCostEntry cfg e.msg.model_slug).input_cost_per_million_tokens = some ir ∧
      (resolveCostEntry cfg e.msg.model_slug).output_cost_per_million_tokens = some orr := by
  simp only [isAssistantE] at h
  unfold processMsg at hok
  cases horr : (resolveCostEntry cfg e.msg.model_slug).output_cost_per_million_tokens with
  | none => simp [h, horr] at hok
  | some orr =>
    cases hir : (resolveCostEntry cfg e.msg.model_slug).input_cost_per_million_tokens with
    | none => simp [h, horr, hir] at hok
    | some ir => exact ⟨ir, orr, rfl, rfl⟩

theorem detFoldIds_eq_detFold (cfg : CostConfig) (tok : Tok) (m : Mapping)
    (ids : List String) (st : DetState) :
    detFoldIds cfg tok m st ids = detFold cfg tok st (msgBearing m ids) := by
  induction ids generalizing st with
  | nil => simp [detFoldIds, msgBearing, List.filterMap_nil, detFold]
  | cons i ids ih =>
    simp only [detFoldIds, msgBearing, List.filterMap_cons]
    cases he : msgEntryOf m i with
    | none => exact ih st
    | some e =>
      simp only [detFold]
      cases hp : processMsg cfg tok st e with
      | error err => rfl
      | ok st1 => exact ih st1

theorem detFold_turns_decomp (cfg : CostConfig) (tok : Tok) (es : List MsgEntry) :
    ∀ st st', detFold cfg tok st es = Except.ok st' →
      ∃ ts, st'.turns = st.turns ++ ts ∧
        st'.totalCost = st.totalCost + (ts.map TurnDetail.turn_total_cost).sum ∧
        st'.totalInput = st.totalInput + (ts.map TurnDetail.input_tokens).sum ∧
        st'.totalOutput = st.totalOutput + (ts.map TurnDetail.output_tokens).sum ∧
        st'.assistantCount = st.assistantCount + ts.length := by
  induction es with
  | nil =>
    intro st st' h
    simp only [detFold, Except.ok.injEq] at h
    exact ⟨[], by simp [← h]⟩
  | cons e es ih =>
    intro st st' h
    simp only [detFold] at h
    cases hp : processMsg cfg tok st e with
    | error err => simp [hp] at h
    | ok st1 =>
      rw [hp] at h
      obtain ⟨ts, hts, hc, hin, hout, hac⟩ := ih st1 st' h
      cases ha : isAssistantE e with
      | false =>
        have := processMsg_not_assistant cfg tok st e ha
        rw [this] at hp
        injection hp with hp
        refine ⟨ts, ?_, ?_, ?_, ?_, ?_⟩ <;> simp [hts, hc, hin, hout, hac, ← hp]
      | true =>
        obtain ⟨ir, orr, hir, horr⟩ := processMsg_ok_rates cfg tok st st1 e ha hp
        have := processMsg_assistant_rates cfg tok st e ir orr ha hir horr
        rw [this] at hp
        injection hp with hp
        refine ⟨specDetail tok e st.history st.turnIndex ir orr :: ts, ?_, ?_, ?_, ?_, ?_⟩ <;>
          simp [hts, hc, hin, hout, hac, ← hp, specDetail, mul_comm] <;> ring

theorem detFold_turnIndex (cfg : CostConfig) (tok : Tok) (es : List MsgEntry) :
    ∀ st st', detFold cfg tok st es = Except.ok st' →
      st'.turnIndex = st.turnIndex + endTurnCount es := by
  induction es with
  | nil =>
    intro st st' h
    simp only [detFold, Except.ok.injEq] at h
    simp [← h, endTurnCount]
  | cons e es ih =>
    intro st st' h
    simp only [detFold] at h
    cases hp : processMsg cfg tok st e with
    | error err => simp [hp] at h
    | ok st1 =>
      rw [hp] at h
      have hrec := ih st1 st' h
      have hti : st1.turnIndex = st.turnIndex + endInc e := by
        cases ha : isAssistantE e with
        | false =>
          have := processMsg_not_assistant cfg tok st e ha
          rw [this] at hp; injection hp with hp; simp [← hp]
        | true =>
          obtain ⟨ir, orr, hir, horr⟩ := processMsg_ok_rates cfg tok st st1 e ha hp
          have := processMsg_assistant_rates cfg tok st e ir orr ha hir horr
          rw [this] at hp; injection hp with hp; simp [← hp]
      rw [hrec, hti]
      simp [endTurnCount]
      omega

theorem detFold_turns_spec (cfg : CostConfig) (tok : Tok) (es : List MsgEntry) :
    ∀ st st', detFold cfg tok st es = Except.ok st' →
      ∀ d ∈ st'.turns, d ∈ st.turns ∨
        ∃ pre e suf, es = pre ++ e :: suf ∧ isAssistantE e = true ∧
          ∃ ir orr,
            (resolveCostEntry cfg e.msg.model_slug).input_cost_per_million_tokens = some ir ∧
            (resolveCostEntry cfg e.msg.model_slug).output_cost_per_million_tokens = some orr ∧
            d = specDetail tok e (st.history ++ pre.map (histEntry tok))
                  (st.turnIndex + endTurnCount pre) ir orr := by
  induction es with
  | nil =>
    intro st st' h d hd
    simp only [detFold, Except.ok.injEq] at h
    rw [← h] at hd
    exact Or.inl hd
  | cons e es ih =>
    intro st st' h d hd
    simp only [detFold] at h
    cases hp : processMsg cfg tok st e with
    | error err => simp [hp] at h
    | ok st1 =>
      rw [hp] at h
      have key : ∀ pre' e' suf', es = pre' ++ e' :: suf' →
          st1.history = st.history ++ [histEntry tok e] →
          st1.turnIndex = st.turnIndex + endInc e →
          (e :: es) = (e :: pre') ++ e' :: suf' ∧
          st1.history ++ pre'.map (histEntry tok)
            = st.history ++ (e :: pre').map (histEntry tok) ∧
          st1.turnIndex + endTurnCount pre'
            = st.turnIndex + endTurnCount (e :: pre') := by
        intro pre' e' suf' hsplit hh ht
        refine ⟨by rw [hsplit]; rfl, ?_, ?_⟩
        · rw [hh]; simp
        · rw [ht]; simp [endTurnCount]; omega
      cases ha : isAssistantE e with
      | false =>
        have hpe := processMsg_not_assistant cfg tok st e ha
        rw [hpe] at hp
        injection hp with hp
        rcases ih st1 st' h d hd with hmem | ⟨pre', e', suf', hsplit, ha', ir, orr, hir, horr, hde⟩
        · left; rw [← hp] at hmem; exact hmem
        · right
          obtain ⟨h1, h2, h3⟩ := key pre' e' suf' hsplit (by simp [← hp]) (by simp [← hp])
          exact ⟨e :: pre', e', suf', h1, ha', ir, orr, hir, horr, by rw [hde, h2, h3]⟩
      | true =>
        obtain ⟨ir, orr, hir, horr⟩ := processMsg_ok_rates cfg tok st st1 e ha hp
        have hpe := processMsg_assistant_rates cfg tok st e ir orr ha hir horr
        rw [hpe] at hp
        injection hp with hp
        rcases ih st1 st' h d hd with hmem | ⟨pre', e', suf', hsplit, ha', ir', orr', hir', horr', hde⟩
        · rw [← hp] at hmem
          simp only [List.mem_append, List.mem_singleton] at hmem
          rcases hmem with hmem | hmem
          · exact Or.inl hmem
          · right
            exact ⟨[], e, es, rfl, ha, ir, orr, hir, horr, by simp [hmem, endTurnCount]⟩
        · right
          obtain ⟨h1, h2, h3⟩ := key pre' e' suf' hsplit (by simp [← hp]) (by simp [← hp])
          exact ⟨e :: pre', e', suf', h1, ha', ir', orr', hir', horr', by rw [hde, h2, h3]⟩

theorem count_real_turns_eq_endTurnCount (m : Mapping) (ids : List String) :
    count_real_turns m ids = endTurnCount (msgBearing m ids) := by
  induction ids with
  | nil => simp [count_real_turns, msgBearing, endTurnCount]
  | cons i ids ih =>
    simp only [count_real_turns, msgBearing, List.filterMap_cons]
    cases he : msgEntryOf m i with
    | none => simpa [he] using ih
    | some e =>
      simp only [endTurnCount, List.map_cons, List.sum_cons]
      rw [show endInc e + (List.map endInc (List.filterMap (msgEntryOf m) ids)).sum
            = endInc e + endTurnCount (msgBearing m ids) from rfl, ← ih, endInc]

theorem analyze_detailed_inv (conv : Conversation) (cfg : CostConfig) (tok : Tok)
    (r : DetailedResult)
    (h : analyze_conversation_tokens_and_costs conv cfg "detailed" tok
          = Except.ok (AnalysisResult.detailed r)) :
    ∃ st : DetState,
      detFoldIds cfg tok conv.mapping {} (get_message_chronological_order conv.mapping)
        = Except.ok st ∧
      r.turns_details = st.turns ∧ r.total_cost = st.totalCost ∧
      r.total_input_tokens_across_turns = st.totalInput ∧
      r.total_output_tokens_for_all_assistant_msgs = st.totalOutput ∧
      r.assistant_messages_count = st.assistantCount ∧
      r.real_turns_count
        = count_real_turns conv.mapping (get_message_chronological_order conv.mapping) ∧
      r.message_count = (get_message_chronological_order conv.mapping).length := by
  unfold analyze_conversation_tokens_and_costs at h
  cases h1 : conv.mapping.isEmpty with
  | true => simp [h1] at h
  | false =>
    simp only [h1, Bool.false_eq_true, if_false] at h
    cases h2 : (get_message_chronological_order conv.mapping).isEmpty with
    | true => simp [h2] at h
    | false =>
      simp only [h2, Bool.false_eq_true, if_false,
        show ("detailed" == "simple") = false from rfl] at h
      cases h3 : detFoldIds cfg tok conv.mapping {} (get_message_chronological_order conv.mapping) with
      | error err => rw [h3] at h; exact Except.noConfusion h
      | ok st =>
        simp only [h3, Except.ok.injEq, AnalysisResult.detailed.injEq] at h
        refine ⟨st, rfl, ?_⟩
        rw [← h]
        simp

theorem analyze_simple_inv (conv : Conversation) (cfg : CostConfig) (tok : Tok)
    (s : SimpleResult)
    (h : analyze_conversation_tokens_and_costs conv cfg "simple" tok
          = Except.ok (AnalysisResult.simple s)) :
    s.simple_total_assistant_tokens
      = (simpleFoldIds tok conv.mapping {} (get_message_chronological_order conv.mapping)).assistant ∧
    s.real_turns_count
      = count_real_turns conv.mapping (get_message_chronological_order conv.mapping) := by
  unfold analyze_conversation_tokens_and_costs at h
  cases h1 : conv.mapping.isEmpty with
  | true => simp [h1] at h
  | false =>
    simp only [h1, Bool.false_eq_true, if_false] at h
    cases h2 : (get_message_chronological_order conv.mapping).isEmpty with
    | true => simp [h2] at h
    | false =>
      simp only [h2, Bool.false_eq_true, if_false,
        show ("simple" == "simple") = true from rfl, if_true] at h
      cases h3 : (simpleRateResolution cfg).2 with
      | none =>
        simp only [h3, Except.ok.injEq, AnalysisResult.simple.injEq] at h
        rw [← h]
        exact ⟨rfl, rfl⟩
      | some e =>
        simp only [h3] at h
        cases h4 : e.input_cost_per_million_tokens with
        | none =>
          simp only [h4] at h
          cases h5 : e.output_cost_per_million_tokens <;>
            simp only [h5, Except.ok.injEq, AnalysisResult.simple.injEq] at h <;>
            · rw [← h]
              exact ⟨rfl, rfl⟩
        | some ir =>
          simp only [h4] at h
          cases h5 : e.output_cost_per_million_tokens <;>
            simp only [h5, Except.ok.injEq, AnalysisResult.simple.injEq] at h <;>
            · rw [← h]
              exact ⟨rfl, rfl⟩

/-! ## Concrete evaluations shared by the witness theorems -/

theorem analyze_oneTurn_detailed_eval :
    analyze_conversation_tokens_and_costs oneTurnConv cfg0 "detailed" tok0
      = Except.ok (AnalysisResult.detailed oneTurnDetailed) := by
  simp +decide [analyze_conversation_tokens_and_costs, get_message_chronological_order,
    chronologicalOrderFuel, findRootId, hasKey, mget, linLoop, hasMsg, count_real_turns,
    msgEntryOf, detFoldIds, processMsg, resolveCostEntry, resolveCostEntry.fallbackCostEntry,
    cget, entryTruthy, extract_text_from_message, count_tokens, tok0,
    identify_model_from_metadata, identify_model_from_metadata.identifyModelFallback,
    identify_model_from_metadata.identifyModelFallback2,
    THOUGHT_CONTENT_MULTIPLIER, oneTurnConv, treeMap, msgU, msgA, cfg0, o3DefaultEntry,
    oneTurnDetailed, oneTurnDetail, hasValidParent, isGuidLike, mkeys,
    show String.join ["Hi"] = "Hi" from rfl, show String.join ["Hello"] = "Hello" from rfl,
    show ("Hi".length = 2) from rfl, show ("Hello".length = 5) from rfl]
  norm_num

theorem analyze_twoTurn_detailed_eval :
    analyze_conversation_tokens_and_costs twoTurnConv cfg0 "detailed" tok0
      = Except.ok (AnalysisResult.detailed twoTurnDetailed) := by
  simp +decide [analyze_conversation_tokens_and_costs, get_message_chronological_order,
    chronologicalOrderFuel, findRootId, hasKey, mget, linLoop, hasMsg, count_real_turns,
    msgEntryOf, detFoldIds, processMsg, resolveCostEntry, resolveCostEntry.fallbackCostEntry,
    cget, entryTruthy, extract_text_from_message, count_tokens, tok0,
    identify_model_from_metadata, identify_model_from_metadata.identifyModelFallback,
    identify_model_from_metadata.identifyModelFallback2,
    THOUGHT_CONTENT_MULTIPLIER, twoTurnConv, twoTurnMap, msgU, msgA, msgU2, msgA2, cfg0,
    o3DefaultEntry, twoTurnDetailed, twoTurnDetail1, twoTurnDetail2, hasValidParent,
    isGuidLike, mkeys,
    show String.join ["Hi"] = "Hi" from rfl, show String.join ["Hello"] = "Hello" from rfl,
    show String.join ["How are you"] = "How are you" from rfl,
    show String.join ["Fine thanks"] = "Fine thanks" from rfl,
    show ("Hi".length = 2) from rfl, show ("Hello".length = 5) from rfl,
    show ("How are you".length = 11) from rfl, show ("Fine thanks".length = 11) from rfl]
  norm_num

theorem analyze_oneTurn_simple_eval :
    analyze_conversation_tokens_and_costs oneTurnConv cfg0 "simple" tok0
      = Except.ok (AnalysisResult.simple oneTurnSimple) := by
  simp +decide [analyze_conversation_tokens_and_costs, get_message_chronological_order,
    chronologicalOrderFuel, findRootId, hasKey, mget, linLoop, hasMsg, count_real_turns,
    msgEntryOf, simpleFoldIds, simpleRateResolution, simpleRateResolution.entryTruthyOpt,
    cget, entryTruthy, extract_text_from_message, count_tokens, tok0,
    THOUGHT_CONTENT_MULTIPLIER, oneTurnConv, treeMap, msgU, msgA, cfg0, o3DefaultEntry,
    oneTurnSimple, hasValidParent, isGuidLike, mkeys,
    show String.join ["Hi"] = "Hi" from rfl, show String.join ["Hello"] = "Hello" from rfl,
    show ("Hi".length = 2) from rfl, show ("Hello".length = 5) from rfl]
  norm_num

theorem analyze_oneTurn_badCfg_simple_eval :
    analyze_conversation_tokens_and_costs oneTurnConv badCfg "simple" tok0
      = Except.ok (AnalysisResult.simple badCfgSimple) := by
  simp +decide [analyze_conversation_tokens_and_costs, get_message_chronological_order,
    chronologicalOrderFuel, findRootId, hasKey, mget, linLoop, hasMsg, count_real_turns,
    msgEntryOf, simpleFoldIds, simpleRateResolution, simpleRateResolution.entryTruthyOpt,
    cget, entryTruthy, extract_text_from_message, count_tokens, tok0,
    THOUGHT_CONTENT_MULTIPLIER, oneTurnConv, treeMap, msgU, msgA, badCfg,
    badCfgSimple, hasValidParent, isGuidLike, mkeys,
    show String.join ["Hi"] = "Hi" from rfl, show String.join ["Hello"] = "Hello" from rfl,
    show ("Hi".length = 2) from rfl, show ("Hello".length = 5) from rfl]

theorem detFoldIds_treeMap_eval :
    detFoldIds cfg0 tok0 treeMap {} ["u1", "a1"] = Except.ok oneTurnState := by
  simp +decide [detFoldIds, processMsg, resolveCostEntry,
    resolveCostEntry.fallbackCostEntry, cget, entryTruthy, extract_text_from_message,
    count_tokens, tok0, identify_model_from_metadata,
    identify_model_from_metadata.identifyModelFallback,
    identify_model_from_metadata.identifyModelFallback2, mget, msgEntryOf, treeMap,
    msgU, msgA, cfg0, o3DefaultEntry, oneTurnState, oneTurnDetail,
    show String.join ["Hi"] = "Hi" from rfl, show String.join ["Hello"] = "Hello" from rfl,
    show ("Hi".length = 2) from rfl, show ("Hello".length = 5) from rfl]
  norm_num

/-! ## Claim C1: detailed-mode input tokens are the prior history sum -/

/-- C1: in detailed mode, every `turns_details` record belongs to an
assistant message of the linearized message-bearing sequence, and its
`input_tokens` is the sum of the `count_thoughts = false` token counts
of all messages strictly before it in that sequence (every prior
message of any role, thought content contributing nothing), the
assistant message itself excluded. -/
theorem claim_C1_input_token_history (conv : Conversation) (cfg : CostConfig)
    (tok : Tok) (r : DetailedResult)
    (h : analyze_conversation_tokens_and_costs conv cfg "detailed" tok
          = Except.ok (AnalysisResult.detailed r)) :
    ∀ d ∈ r.turns_details, ∃ pre e suf,
      msgBearing conv.mapping (get_message_chronological_order conv.mapping)
        = pre ++ e :: suf ∧
      isAssistantE e = true ∧ d.assistant_message_id = e.id ∧
      d.input_tokens
        = (pre.map (fun x => extract_text_from_message tok x.node false)).sum := by
  intro d hd
  obtain ⟨st, hfold, hturns, -⟩ := analyze_detailed_inv conv cfg tok r h
  rw [detFoldIds_eq_detFold] at hfold
  have hspec := detFold_turns_spec cfg tok _ {} st hfold d (hturns ▸ hd)
  rcases hspec with hmem | ⟨pre, e, suf, hsplit, ha, ir, orr, hir, horr, hde⟩
  · simp at hmem
  · refine ⟨pre, e, suf, hsplit, ha, ?_, ?_⟩
    · rw [hde]; rfl
    · rw [hde]
      simp [specDetail, detailInputTokens, histEntry, List.map_map, Function.comp_def]

/-- Witness for C1: the second assistant message of `twoTurnConv` pays
for the three messages before it (2 + 5 + 11 = 18 tokens). -/
theorem claim_C1_witness :
    (analyze_conversation_tokens_and_costs twoTurnConv cfg0 "detailed" tok0
      = Except.ok (AnalysisResult.detailed twoTurnDetailed)) ∧
    twoTurnDetail2 ∈ twoTurnDetailed.turns_details ∧
    (∃ pre e suf,
      msgBearing twoTurnMap (get_message_chronological_order twoTurnMap)
        = pre ++ e :: suf ∧
      isAssistantE e = true ∧ twoTurnDetail2.assistant_message_id = e.id ∧
      twoTurnDetail2.input_tokens
        = (pre.map (fun x => extract_text_from_message tok0 x.node false)).sum) := by
  refine ⟨analyze_twoTurn_detailed_eval, List.mem_cons_of_mem _ (List.mem_singleton_self _), ?_⟩
  exact claim_C1_input_token_history twoTurnConv cfg0 tok0 twoTurnDetailed
    analyze_twoTurn_detailed_eval twoTurnDetail2
    (List.mem_cons_of_mem _ (List.mem_singleton_self _))

/-! ## Claim C2: input-rate halving after the first turn -/

/-- C2: in detailed mode, every `turns_details` record charges input at
the resolved cost entry's input rate when its `turn_index` is 0 and at
exactly half that rate when its `turn_index` is positive (with
`input_discounted` recording which case applied).  The resolved entry
is the one `resolveCostEntry` yields for the message's own model slug. -/
theorem claim_C2_turn_discount (conv : Conversation) (cfg : CostConfig)
    (tok : Tok) (r : DetailedResult)
    (h : analyze_conversation_tokens_and_costs conv cfg "detailed" tok
          = Except.ok (AnalysisResult.detailed r)) :
    ∀ d ∈ r.turns_details, ∃ pre e suf,
      msgBearing conv.mapping (get_message_chronological_order conv.mapping)
        = pre ++ e :: suf ∧
      isAssistantE e = true ∧ ∃ ir,
        (resolveCostEntry cfg e.msg.model_slug).input_cost_per_million_tokens = some ir ∧
        d.input_cost = d.input_tokens / 1000000 * (if d.turn_index > 0 then ir / 2 else ir) ∧
        d.input_discounted = decide (d.turn_index > 0) := by
  intro d hd
  obtain ⟨st, hfold, hturns, -⟩ := analyze_detailed_inv conv cfg tok r h
  rw [detFoldIds_eq_detFold] at hfold
  have hspec := detFold_turns_spec cfg tok _ {} st hfold d (hturns ▸ hd)
  rcases hspec with hmem | ⟨pre, e, suf, hsplit, ha, ir, orr, hir, horr, hde⟩
  · simp at hmem
  · exact ⟨pre, e, suf, hsplit, ha, ir, hir, by rw [hde]; rfl, by rw [hde]; rfl⟩

/-- Witness for C2: in the two-turn conversation the first assistant
message pays the full rate 10 and the second (turn_index 1) pays rate
10/2 = 5; numerically 18/1e6 · 5 = 9/100000. -/
theorem claim_C2_witness :
    (analyze_conversation_tokens_and_costs twoTurnConv cfg0 "detailed" tok0
      = Except.ok (AnalysisResult.detailed twoTurnDetailed)) ∧
    twoTurnDetail2 ∈ twoTurnDetailed.turns_details ∧
    (∃ pre e suf,
      msgBearing twoTurnMap (get_message_chronological_order twoTurnMap)
        = pre ++ e :: suf ∧
      isAssistantE e = true ∧ ∃ ir,
        (resolveCostEntry cfg0 e.msg.model_slug).input_cost_per_million_tokens = some ir ∧
        twoTurnDetail2.input_cost
          = twoTurnDetail2.input_tokens / 1000000 *
              (if twoTurnDetail2.turn_index > 0 then ir / 2 else ir) ∧
        twoTurnDetail2.input_discounted = decide (twoTurnDetail2.turn_index > 0)) ∧
    twoTurnDetail2.input_cost = twoTurnDetail1.input_cost / twoTurnDetail1.input_tokens
        * (twoTurnDetail2.input_tokens / 2) := by
  refine ⟨analyze_twoTurn_detailed_eval,
    List.mem_cons_of_mem _ (List.mem_singleton_self _), ?_, ?_⟩
  · exact claim_C2_turn_discount twoTurnConv cfg0 tok0 twoTurnDetailed
      analyze_twoTurn_detailed_eval twoTurnDetail2
      (List.mem_cons_of_mem _ (List.mem_singleton_self _))
  · norm_num [twoTurnDetail1, twoTurnDetail2]

/-! ## Claim C4: real turn count equals the replayed turn index -/

/-- C4: the mode-independent direct scan `count_real_turns` (counting
`end_turn = true` messages) agrees with the final `current_turn_index`
of the detailed accrual loop once the whole sequence is processed, and
the results of both modes record exactly that scan value as
`real_turns_count`. -/
theorem claim_C4_turn_count_replay :
    (∀ (m : Mapping) (ids : List String) (cfg : CostConfig) (tok : Tok)
      (st' : DetState), detFoldIds cfg tok m {} ids = Except.ok st' →
      count_real_turns m ids = st'.turnIndex) ∧
    (∀ (conv : Conversation) (cfg : CostConfig) (tok : Tok) (r : DetailedResult),
      analyze_conversation_tokens_and_costs conv cfg "detailed" tok
        = Except.ok (AnalysisResult.detailed r) →
      r.real_turns_count = count_real_turns conv.mapping
        (get_message_chronological_order conv.mapping)) ∧
    (∀ (conv : Conversation) (cfg : CostConfig) (tok : Tok) (s : SimpleResult),
      analyze_conversation_tokens_and_costs conv cfg "simple" tok
        = Except.ok (AnalysisResult.simple s) →
      s.real_turns_count = count_real_turns conv.mapping
        (get_message_chronological_order conv.mapping)) := by
  refine ⟨?_, ?_, ?_⟩
  · intro m ids cfg tok st' h
    rw [detFoldIds_eq_detFold] at h
    have := detFold_turnIndex cfg tok (msgBearing m ids) {} st' h
    rw [count_real_turns_eq_endTurnCount]
    simpa using this.symm
  · intro conv cfg tok r h
    obtain ⟨st, -, -, -, -, -, -, hrt, -⟩ := analyze_detailed_inv conv cfg tok r h
    exact hrt
  · intro conv cfg tok s h
    exact (analyze_simple_inv conv cfg tok s h).2

/-- Witness for C4: on `treeMap`'s order the scan counts 1 turn, the
loop ends with `turnIndex = 1`, and both modes record 1 real turn. -/
theorem claim_C4_witness :
    (detFoldIds cfg0 tok0 treeMap {} ["u1", "a1"] = Except.ok oneTurnState ∧
      count_real_turns treeMap ["u1", "a1"] = oneTurnState.turnIndex) ∧
    (analyze_conversation_tokens_and_costs oneTurnConv cfg0 "detailed" tok0
        = Except.ok (AnalysisResult.detailed oneTurnDetailed) ∧
      oneTurnDetailed.real_turns_count = count_real_turns oneTurnConv.mapping
        (get_message_chronological_order oneTurnConv.mapping)) ∧
    (analyze_conversation_tokens_and_costs oneTurnConv cfg0 "simple" tok0
        = Except.ok (AnalysisResult.simple oneTurnSimple) ∧
      oneTurnSimple.real_turns_count = count_real_turns oneTurnConv.mapping
        (get_message_chronological_order oneTurnConv.mapping)) :=
  ⟨⟨detFoldIds_treeMap_eval,
      claim_C4_turn_count_replay.1 treeMap ["u1", "a1"] cfg0 tok0 oneTurnState
        detFoldIds_treeMap_eval⟩,
    ⟨analyze_oneTurn_detailed_eval,
      claim_C4_turn_count_replay.2.1 oneTurnConv cfg0 tok0 oneTurnDetailed
        analyze_oneTurn_detailed_eval⟩,
    ⟨analyze_oneTurn_simple_eval,
      claim_C4_turn_count_replay.2.2 oneTurnConv cfg0 tok0 oneTurnSimple
        analyze_oneTurn_simple_eval⟩⟩

/-! ## Claim C10: detailed results are consistent with their records -/

/-- C10: an error-free detailed result is internally consistent with
its per-message records: `total_cost`, input-token and output-token
totals are the sums over `turns_details`, and
`assistant_messages_count` is the number of records. -/
theorem claim_C10_result_consistency (conv : Conversation) (cfg : CostConfig)
    (tok : Tok) (r : DetailedResult)
    (h : analyze_conversation_tokens_and_costs conv cfg "detailed" tok
          = Except.ok (AnalysisResult.detailed r)) :
    r.total_cost = (r.turns_details.map TurnDetail.turn_total_cost).sum ∧
    r.total_input_tokens_across_turns = (r.turns_details.map TurnDetail.input_tokens).sum ∧
    r.total_output_tokens_for_all_assistant_msgs
      = (r.turns_details.map TurnDetail.output_tokens).sum ∧
    r.assistant_messages_count = r.turns_details.length := by
  obtain ⟨st, hfold, hturns, hc, hin, hout, hac, -⟩ := analyze_detailed_inv conv cfg tok r h
  rw [detFoldIds_eq_detFold] at hfold
  obtain ⟨ts, hts, h1, h2, h3, h4⟩ := detFold_turns_decomp cfg tok _ {} st hfold
  have hts' : st.turns = ts := by simpa using hts
  refine ⟨?_, ?_, ?_, ?_⟩ <;>
    simp [hturns, hc, hin, hout, hac, hts', h1, h2, h3, h4]

/-- Witness for C10: the two-turn detailed result satisfies all four
consistency equations. -/
theorem claim_C10_witness :
    (analyze_conversation_tokens_and_costs twoTurnConv cfg0 "detailed" tok0
      = Except.ok (AnalysisResult.detailed twoTurnDetailed)) ∧
    (twoTurnDetailed.total_cost
        = (twoTurnDetailed.turns_details.map TurnDetail.turn_total_cost).sum ∧
      twoTurnDetailed.total_input_tokens_across_turns
        = (twoTurnDetailed.turns_details.map TurnDetail.input_tokens).sum ∧
      twoTurnDetailed.total_output_tokens_for_all_assistant_msgs
        = (twoTurnDetailed.turns_details.map TurnDetail.output_tokens).sum ∧
      twoTurnDetailed.assistant_messages_count = twoTurnDetailed.turns_details.length) :=
  ⟨analyze_twoTurn_detailed_eval,
    claim_C10_result_consistency twoTurnConv cfg0 tok0 twoTurnDetailed
      analyze_twoTurn_detailed_eval⟩

/-! ## Claim C9: simple/detailed output-token agreement -/

theorem detFold_turns_len (cfg : CostConfig) (tok : Tok) (es : List MsgEntry) :
    ∀ st st', detFold cfg tok st es = Except.ok st' →
      st'.turns.length = st.turns.length + (es.filter isAssistantE).length := by
  induction es with
  | nil =>
    intro st st' h
    simp only [detFold, Except.ok.injEq] at h
    simp [← h]
  | cons e es ih =>
    intro st st' h
    simp only [detFold] at h
    cases hp : processMsg cfg tok st e with
    | error err => simp [hp] at h
    | ok st1 =>
      rw [hp] at h
      have hrec := ih st1 st' h
      cases ha : isAssistantE e with
      | false =>
        have := processMsg_not_assistant cfg tok st e ha
        rw [this] at hp; injection hp with hp
        rw [hrec, ← hp]
        simp [List.filter_cons, ha]
      | true =>
        obtain ⟨ir, orr, hir, horr⟩ := processMsg_ok_rates cfg tok st st1 e ha hp
        have := processMsg_assistant_rates cfg tok st e ir orr ha hir horr
        rw [this] at hp; injection hp with hp
        rw [hrec, ← hp]
        simp [List.filter_cons, ha]
        omega

theorem simpleFold_assistant (tok : Tok) (m : Mapping) (ids : List String) :
    ∀ t : SimpleTotals, (simpleFoldIds tok m t ids).assistant
      = t.assistant + (((msgBearing m ids).filter isAssistantE).map
          (fun e => extract_text_from_message tok e.node true)).sum := by
  induction ids with
  | nil => intro t; simp [simpleFoldIds, msgBearing]
  | cons i ids ih =>
    intro t
    simp only [simpleFoldIds, msgBearing, List.filterMap_cons]
    cases he : msgEntryOf m i with
    | none => simpa [msgBearing] using ih t
    | some e =>
      cases ha : isAssistantE e with
      | true =>
        have hrole : e.msg.author_role.getD "unknown" = "assistant" := by
          simpa [isAssistantE] using ha
        simp only [hrole, show ("assistant" == "user") = false from rfl,
          Bool.false_eq_true, if_false, show ("assistant" == "assistant") = true from rfl,
          if_true, List.filter_cons, ha, List.map_cons, List.sum_cons]
        rw [show (msgBearing m ids) = List.filterMap (msgEntryOf m) ids from rfl] at ih
        rw [ih]
        ring
      | false =>
        have hrole : (e.msg.author_role.getD "unknown" == "assistant") = false := by
          simpa [isAssistantE] using ha
        have hfc : List.filter isAssistantE (e :: List.filterMap (msgEntryOf m) ids)
            = List.filter isAssistantE (List.filterMap (msgEntryOf m) ids) := by
          simp [List.filter_cons, ha]
        rw [hfc]
        rw [show (msgBearing m ids) = List.filterMap (msgEntryOf m) ids from rfl] at ih
        by_cases hu : e.msg.author_role.getD "unknown" = "user"
        · simp only [hu, show ("user" == "user") = true from rfl, if_true]
          rw [ih]
        · by_cases hsys : e.msg.author_role.getD "unknown" = "system"
          · simp only [hsys, show ("system" == "user") = false from rfl,
              show ("system" == "assistant") = false from rfl,
              show ("system" == "system") = true from rfl,
              Bool.false_eq_true, if_false, if_true]
            rw [ih]
          · have hu' : (e.msg.author_role.getD "unknown" == "user") = false := by
              simpa using hu
            have hs' : (e.msg.author_role.getD "unknown" == "system") = false := by
              simpa using hsys
            simp only [hu', hrole, hs', Bool.false_eq_true, if_false]
            rw [ih]

/-- C9: for a conversation whose detailed analysis has exactly one
`turns_details` record (a single assistant message) and one real turn,
the simple-mode `simple_total_assistant_tokens` equals that record's
detailed-mode `output_tokens`; both are the `count_thoughts = true`
token count of the assistant message. -/
theorem claim_C9_simple_detailed_agreement (conv : Conversation) (cfg : CostConfig)
    (tok : Tok) (s : SimpleResult) (r : DetailedResult) (td : TurnDetail)
    (hs : analyze_conversation_tokens_and_costs conv cfg "simple" tok
          = Except.ok (AnalysisResult.simple s))
    (hd : analyze_conversation_tokens_and_costs conv cfg "detailed" tok
          = Except.ok (AnalysisResult.detailed r))
    (hone : r.turns_details = [td]) (hturn : r.real_turns_count = 1) :
    s.simple_total_assistant_tokens = td.output_tokens := by
  obtain ⟨hsa, -⟩ := analyze_simple_inv conv cfg tok s hs
  obtain ⟨st, hfold, hturns, -⟩ := analyze_detailed_inv conv cfg tok r hd
  rw [detFoldIds_eq_detFold] at hfold
  have hlen := detFold_turns_len cfg tok _ {} st hfold
  rw [hone] at hturns
  rw [← hturns] at hlen
  simp only [List.length_singleton] at hlen
  have hfilterlen :
      ((msgBearing conv.mapping (get_message_chronological_order conv.mapping)).filter
        isAssistantE).length = 1 := by
    simpa using hlen.symm
  obtain ⟨e0, he0⟩ := List.length_eq_one.mp hfilterlen
  have htdmem : td ∈ st.turns := by rw [← hturns]; exact List.mem_singleton_self td
  rcases detFold_turns_spec cfg tok _ {} st hfold td htdmem with hmem |
    ⟨pre, e, suf, hsplit, ha, ir, orr, hir, horr, hde⟩
  · simp at hmem
  · have hemem : e ∈ (msgBearing conv.mapping
        (get_message_chronological_order conv.mapping)).filter isAssistantE := by
      rw [List.mem_filter]
      exact ⟨by rw [hsplit]; simp, ha⟩
    rw [he0, List.mem_singleton] at hemem
    have hout : td.output_tokens = extract_text_from_message tok e.node true := by
      rw [hde]; rfl
    rw [hsa, simpleFold_assistant, he0, ← hemem, hout]
    simp

/-- Witness for C9: on `oneTurnConv` both modes agree at 5 output
tokens for the single assistant message. -/
theorem claim_C9_witness :
    (analyze_conversation_tokens_and_costs oneTurnConv cfg0 "simple" tok0
      = Except.ok (AnalysisResult.simple oneTurnSimple)) ∧
    (analyze_conversation_tokens_and_costs oneTurnConv cfg0 "detailed" tok0
      = Except.ok (AnalysisResult.detailed oneTurnDetailed)) ∧
    oneTurnDetailed.turns_details = [oneTurnDetail] ∧
    oneTurnDetailed.real_turns_count = 1 ∧
    oneTurnSimple.simple_total_assistant_tokens = oneTurnDetail.output_tokens :=
  ⟨analyze_oneTurn_simple_eval, analyze_oneTurn_detailed_eval, rfl, rfl,
    claim_C9_simple_detailed_agreement oneTurnConv cfg0 tok0 oneTurnSimple
      oneTurnDetailed oneTurnDetail analyze_oneTurn_simple_eval
      analyze_oneTurn_detailed_eval rfl rfl⟩

/-! ## Claim C7: structural errors fail softly and are excluded from
aggregation -/

/-- C7: a conversation with no mapping, or whose linearization is
empty, yields a normal return (no exception) carrying an error-tagged
result, and appending such a result to any result list leaves the
report's numeric summary sums unchanged (error results are filtered
out of `valid_results`). -/
theorem claim_C7_soft_error (conv : Conversation) (cfg : CostConfig) (mode : String)
    (tok : Tok)
    (h : conv.mapping = [] ∨ get_message_chronological_order conv.mapping = []) :
    ∃ er : ErrorResult,
      analyze_conversation_tokens_and_costs conv cfg mode tok
        = Except.ok (AnalysisResult.error er) ∧
      (er.error = "No message mapping found" ∨
        er.error = "Could not determine message order or no messages") ∧
      ∀ rs : List AnalysisResult,
        report_summary_totals (rs ++ [AnalysisResult.error er])
          = report_summary_totals rs := by
  have agg : ∀ er : ErrorResult, ∀ rs : List AnalysisResult,
      report_summary_totals (rs ++ [AnalysisResult.error er])
        = report_summary_totals rs := by
    intro er rs
    simp [report_summary_totals, valid_results, List.filter_append, is_error_result]
  by_cases h1 : conv.mapping.isEmpty
  · refine ⟨⟨conv.title.getD "N/A", conv.create_time, conv.update_time,
      "No message mapping found", mode⟩, ?_, Or.inl rfl, agg _⟩
    unfold analyze_conversation_tokens_and_costs
    simp [h1]
  · have h1' : conv.mapping.isEmpty = false := by simpa using h1
    have h2 : (get_message_chronological_order conv.mapping).isEmpty = true := by
      rcases h with h | h
      · rw [h] at h1'; simp at h1'
      · simp [h]
    refine ⟨⟨conv.title.getD "N/A", conv.create_time, conv.update_time,
      "Could not determine message order or no messages", mode⟩, ?_, Or.inr rfl, agg _⟩
    unfold analyze_conversation_tokens_and_costs
    simp [h1', h2]

/-- Witness for C7: the mappingless conversation produces an
error-tagged result that aggregation ignores. -/
theorem claim_C7_witness :
    (emptyConv.mapping = [] ∨ get_message_chronological_order emptyConv.mapping = []) ∧
    ∃ er : ErrorResult,
      analyze_conversation_tokens_and_costs emptyConv cfg0 "detailed" tok0
        = Except.ok (AnalysisResult.error er) ∧
      (er.error = "No message mapping found" ∨
        er.error = "Could not determine message order or no messages") ∧
      ∀ rs : List AnalysisResult,
        report_summary_totals (rs ++ [AnalysisResult.error er])
          = report_summary_totals rs :=
  ⟨Or.inl rfl, claim_C7_soft_error emptyConv cfg0 "detailed" tok0 (Or.inl rfl)⟩

/-! ## Claim C8: cost-configuration gaps

The claim fails in detailed mode: a truthy cost entry that lacks a
rate key makes the subscripts at source lines 264/276 raise `KeyError`
out of `analyze_conversation_tokens_and_costs` while an assistant
message is being costed.  Only simple mode recovers with zero cost and
an annotated model key. -/

/-- Counterexample to C8: a one-assistant-message conversation with a
cost table whose only entry lacks the output rate key makes detailed
mode raise (an `Except.error` escaping the call) instead of recovering
with 0 cost. -/
theorem claim_C8_counterexample :
    analyze_conversation_tokens_and_costs oneTurnConv badCfg "detailed" tok0
      = Except.error "KeyError: output_cost_per_million_tokens" := by
  simp +decide [analyze_conversation_tokens_and_costs, get_message_chronological_order,
    chronologicalOrderFuel, findRootId, hasKey, mget, linLoop, hasMsg, count_real_turns,
    msgEntryOf, detFoldIds, processMsg, resolveCostEntry, resolveCostEntry.fallbackCostEntry,
    cget, entryTruthy, extract_text_from_message, count_tokens, tok0,
    THOUGHT_CONTENT_MULTIPLIER, oneTurnConv, treeMap, msgU, msgA, badCfg,
    hasValidParent, isGuidLike, mkeys,
    show String.join ["Hi"] = "Hi" from rfl, show String.join ["Hello"] = "Hello" from rfl]

/-- C8 amended: simple mode never raises for any conversation and cost
table, and when no usable rate pair is found anywhere in its fallback
chain it charges 0 input, output and total cost and annotates the
model key with " (rates not found/incomplete)".  (Detailed mode, by
the counterexample, instead propagates a `KeyError` when the resolved
entry lacks a rate key and an assistant message is present.) -/
theorem claim_C8_amended :
    (∀ (conv : Conversation) (cfg : CostConfig) (tok : Tok),
      ∃ res, analyze_conversation_tokens_and_costs conv cfg "simple" tok
        = Except.ok res) ∧
    (∀ (conv : Conversation) (cfg : CostConfig) (tok : Tok) (s : SimpleResult),
      analyze_conversation_tokens_and_costs conv cfg "simple" tok
        = Except.ok (AnalysisResult.simple s) →
      usableSimpleRates cfg = false →
      s.simple_input_cost = 0 ∧ s.simple_output_cost = 0 ∧ s.simple_total_cost = 0 ∧
      s.simple_cost_model_key
        = (simpleRateResolution cfg).1 ++ " (rates not found/incomplete)") := by
  constructor
  · intro conv cfg tok
    cases hres : analyze_conversation_tokens_and_costs conv cfg "simple" tok with
    | ok res => exact ⟨res, rfl⟩
    | error err =>
      exfalso
      unfold analyze_conversation_tokens_and_costs at hres
      cases h1 : conv.mapping.isEmpty with
      | true => simp [h1] at hres
      | false =>
        simp only [h1, Bool.false_eq_true, if_false] at hres
        cases h2 : (get_message_chronological_order conv.mapping).isEmpty with
        | true => simp [h2] at hres
        | false =>
          simp only [h2, Bool.false_eq_true, if_false,
            show ("simple" == "simple") = true from rfl, if_true] at hres
          cases h3 : (simpleRateResolution cfg).2 with
          | none => simp only [h3] at hres; exact Except.noConfusion hres
          | some e =>
            simp only [h3] at hres
            cases h4 : e.input_cost_per_million_tokens with
            | none =>
              simp only [h4] at hres
              exact Except.noConfusion hres
            | some ir =>
              simp only [h4] at hres
              cases h5 : e.output_cost_per_million_tokens <;>
                simp only [h5] at hres <;>
                exact Except.noConfusion hres
  · intro conv cfg tok s h hus
    unfold analyze_conversation_tokens_and_costs at h
    cases h1 : conv.mapping.isEmpty with
    | true => simp [h1] at h
    | false =>
      simp only [h1, Bool.false_eq_true, if_false] at h
      cases h2 : (get_message_chronological_order conv.mapping).isEmpty with
      | true => simp [h2] at h
      | false =>
        simp only [h2, Bool.false_eq_true, if_false,
          show ("simple" == "simple") = true from rfl, if_true] at h
        unfold usableSimpleRates at hus
        cases h3 : (simpleRateResolution cfg).2 with
        | none =>
          simp only [h3, Except.ok.injEq, AnalysisResult.simple.injEq] at h
          rw [← h]
          exact ⟨rfl, rfl, rfl, rfl⟩
        | some e =>
          simp only [h3] at hus
          simp only [h3] at h
          cases h4 : e.input_cost_per_million_tokens with
          | none =>
            simp only [h4] at h
            cases h5 : e.output_cost_per_million_tokens <;>
              simp only [h5, Except.ok.injEq, AnalysisResult.simple.injEq] at h <;>
              · rw [← h]
                exact ⟨rfl, rfl, rfl, rfl⟩
          | some ir =>
            simp only [h4] at h
            cases h5 : e.output_cost_per_million_tokens with
            | none =>
              simp only [h5, Except.ok.injEq, AnalysisResult.simple.injEq] at h
              rw [← h]
              exact ⟨rfl, rfl, rfl, rfl⟩
            | some orr =>
              rw [h4, h5] at hus
              simp at hus

/-- Witness for the amended C8: under `badCfg` (entry lacking the
output rate) simple mode returns normally with zero costs and the
annotated key. -/
theorem claim_C8_witness :
    (analyze_conversation_tokens_and_costs oneTurnConv badCfg "simple" tok0
      = Except.ok (AnalysisResult.simple badCfgSimple)) ∧
    usableSimpleRates badCfg = false ∧
    (badCfgSimple.simple_input_cost = 0 ∧ badCfgSimple.simple_output_cost = 0 ∧
      badCfgSimple.simple_total_cost = 0 ∧
      badCfgSimple.simple_cost_model_key
        = (simpleRateResolution badCfg).1 ++ " (rates not found/incomplete)") :=
  ⟨analyze_oneTurn_badCfg_simple_eval, by decide,
    claim_C8_amended.2 oneTurnConv badCfg tok0 badCfgSimple
      analyze_oneTurn_badCfg_simple_eval (by decide)⟩

/-! ## Linearizer lemmas -/

theorem mget_eq_none_of_not_mem (m : Mapping) (k : String) (h : k ∉ mkeys m) :
    mget m k = none := by
  induction m with
  | nil => rfl
  | cons p rest ih =>
    obtain ⟨k', v⟩ := p
    simp only [mkeys, List.map_cons, List.mem_cons] at h
    push_neg at h
    simp only [mget]
    rw [if_neg (fun he => h.1 he.symm)]
    exact ih (by simpa [mkeys] using h.2)

theorem linLoop_break (m : Mapping) (c : String) (h : succNode m c = none) :
    ∀ f o v, linLoop m f o v c = o := by
  intro f o v
  cases f with
  | zero => rfl
  | succ f =>
    by_cases hc : (c == "") = true
    · simp [linLoop, hc]
    · unfold succNode at h
      rw [if_neg (by simpa using hc)] at h
      cases hm : mget m c with
      | none => simp [linLoop, hc, hm]
      | some nd =>
        simp only [hm] at h
        cases hch : nd.children with
        | nil => simp [linLoop, hc, hm, hch]
        | cons nx rest => simp only [hch] at h; simp at h

theorem succNode_some_inv (m : Mapping) (c nx : String)
    (h : succNode m c = some nx) :
    (c == "") = false ∧ ∃ nd rest, mget m c = some nd ∧ nd.children = nx :: rest := by
  unfold succNode at h
  by_cases hc : (c == "") = true
  · rw [if_pos hc] at h; exact absurd h (by simp)
  · rw [if_neg (by simpa using hc)] at h
    cases hm : mget m c with
    | none => rw [hm] at h; exact absurd h (by simp)
    | some nd =>
      simp only [hm] at h
      cases hch : nd.children with
      | nil => simp only [hch] at h; exact absurd h (by simp)
      | cons nx' rest =>
        simp only [hch, List.head?_cons, Option.some.injEq] at h
        exact ⟨by simpa using hc, nd, rest, rfl, by rw [hch, h]⟩

theorem linLoop_step (m : Mapping) (f : Nat) (o v : List String) (c nx : String)
    (nd : Node) (rest : List String) (hc : (c == "") = false)
    (hm : mget m c = some nd) (hch : nd.children = nx :: rest)
    (hv : v.contains nx = false) :
    linLoop m (f + 1) o v c
      = linLoop m f (if hasMsg m nx then o ++ [nx] else o) (nx :: v) nx := by
  have hnxv : nx ∉ v := by simpa using hv
  simp [linLoop, hc, hm, hch, hv, hnxv]

theorem linLoop_emits (m : Mapping) : ∀ (f : Nat) (o v : List String) (c : String),
    ∃ tail, linLoop m f o v c = o ++ tail ∧ tail.Nodup ∧
      ∀ x ∈ tail, hasMsg m x = true ∧ x ∉ v := by
  intro f
  induction f with
  | zero => intro o v c; exact ⟨[], by simp [linLoop], List.nodup_nil, by simp⟩
  | succ f ih =>
    intro o v c
    cases hs : succNode m c with
    | none => exact ⟨[], by simp [linLoop_break m c hs], List.nodup_nil, by simp⟩
    | some nx =>
      obtain ⟨hc, nd, rest, hm, hch⟩ := succNode_some_inv m c nx hs
      by_cases hv : (v.contains nx) = true
      · have hmem : nx ∈ v := by simpa using hv
        refine ⟨[], ?_, List.nodup_nil, by simp⟩
        simp [linLoop, hc, hm, hch, hv, hmem]
      · have hv' : v.contains nx = false := by simpa using hv
        have hnxv : nx ∉ v := by simpa using hv'
        obtain ⟨tail, htail, hnd, hprop⟩ :=
          ih (if hasMsg m nx then o ++ [nx] else o) (nx :: v) nx
        refine ⟨(if hasMsg m nx then [nx] else []) ++ tail, ?_, ?_, ?_⟩
        · rw [linLoop_step m f o v c nx nd rest hc hm hch hv', htail]
          cases hmsg : hasMsg m nx <;> simp [hmsg]
        · have htnx : ∀ x ∈ tail, x ≠ nx := by
            intro x hx
            have := (hprop x hx).2
            simp only [List.mem_cons] at this
            push_neg at this
            exact this.1
          cases hmsg : hasMsg m nx with
          | false => simpa using hnd
          | true =>
            simp only [if_true, List.singleton_append, List.nodup_cons]
            exact ⟨fun hmem => (htnx nx hmem) rfl, hnd⟩
        · intro x hx
          simp only [List.mem_append] at hx
          rcases hx with hx | hx
          · cases hmsg : hasMsg m nx with
            | false => rw [hmsg] at hx; simp at hx
            | true =>
              rw [hmsg] at hx
              simp only [if_true, List.mem_singleton] at hx
              subst hx
              exact ⟨hmsg, hnxv⟩
          · have := hprop x hx
            refine ⟨this.1, ?_⟩
            have h2 := this.2
            simp only [List.mem_cons] at h2
            push_neg at h2
            exact h2.2

theorem linLoop_walk (m : Mapping) : ∀ (f : Nat) (o v : List String) (c : String),
    ∃ n, linLoop m f o v c
      = o ++ (walk m n (succNode m c)).filter (fun i => hasMsg m i) := by
  intro f
  induction f with
  | zero => intro o v c; exact ⟨0, by simp [linLoop, walk]⟩
  | succ f ih =>
    intro o v c
    cases hs : succNode m c with
    | none => exact ⟨0, by simp [linLoop_break m c hs, walk]⟩
    | some nx =>
      obtain ⟨hc, nd, rest, hm, hch⟩ := succNode_some_inv m c nx hs
      by_cases hv : (v.contains nx) = true
      · have hmem : nx ∈ v := by simpa using hv
        refine ⟨0, ?_⟩
        simp [linLoop, hc, hm, hch, hv, hmem, walk]
      · have hv' : v.contains nx = false := by simpa using hv
        obtain ⟨n, hn⟩ := ih (if hasMsg m nx then o ++ [nx] else o) (nx :: v) nx
        refine ⟨n + 1, ?_⟩
        rw [linLoop_step m f o v c nx nd rest hc hm hch hv', hn]
        show _ = o ++ (walk m (n+1) (some nx)).filter (fun i => hasMsg m i)
        rw [show walk m (n+1) (some nx) = nx :: walk m n (succNode m nx) from rfl]
        rw [List.filter_cons]
        cases hmsg : hasMsg m nx <;> simp [hmsg]

theorem freshBound_cons_lt (m : Mapping) (v : List String) (nx : String)
    (hk : nx ∈ mkeys m) (hv : v.contains nx = false) :
    freshBound m (nx :: v) < freshBound m v := by
  unfold freshBound
  have key : ((mkeys m).filter (fun k => !((nx :: v).contains k))).length
      < ((mkeys m).filter (fun k => !(v.contains k))).length := by
    have hcongr : (mkeys m).filter (fun k => !((nx :: v).contains k))
        = ((mkeys m).filter (fun k => !(v.contains k))).filter (fun k => !(k == nx)) := by
      rw [List.filter_filter]
      apply List.filter_congr
      intro k _
      simp only [List.contains_cons, Bool.not_or]
    rw [hcongr]
    apply List.length_filter_lt_length_iff_exists.mpr
    refine ⟨nx, ?_, by simp⟩
    rw [List.mem_filter]
    exact ⟨hk, by rw [hv]; rfl⟩
  omega

theorem linLoop_fuel_succ (m : Mapping) : ∀ (f : Nat) (o v : List String) (c : String),
    freshBound m v ≤ f → linLoop m (f + 1) o v c = linLoop m f o v c := by
  intro f
  induction f with
  | zero => intro o v c h; unfold freshBound at h; omega
  | succ f ih =>
    intro o v c h
    cases hs : succNode m c with
    | none => rw [linLoop_break m c hs, linLoop_break m c hs]
    | some nx =>
      obtain ⟨hc, nd, rest, hm, hch⟩ := succNode_some_inv m c nx hs
      by_cases hv : (v.contains nx) = true
      · have hmem : nx ∈ v := by simpa using hv
        simp [linLoop, hc, hm, hch, hv, hmem]
      · have hv' : v.contains nx = false := by simpa using hv
        rw [linLoop_step m (f + 1) o v c nx nd rest hc hm hch hv',
          linLoop_step m f o v c nx nd rest hc hm hch hv']
        by_cases hk : nx ∈ mkeys m
        · exact ih _ _ _ (by have := freshBound_cons_lt m v nx hk hv'; omega)
        · have hnone : mget m nx = none := mget_eq_none_of_not_mem m nx hk
          have hbreak : succNode m nx = none := by
            unfold succNode
            by_cases hne : (nx == "") = true
            · rw [if_pos hne]
            · rw [if_neg (by simpa using hne), hnone]
          rw [linLoop_break m nx hbreak, linLoop_break m nx hbreak]

theorem linLoop_fuel_ge (m : Mapping) (f g : Nat) (o v : List String) (c : String)
    (hf : freshBound m v ≤ f) (hg : f ≤ g) :
    linLoop m g o v c = linLoop m f o v c := by
  obtain ⟨k, rfl⟩ : ∃ k, g = f + k := ⟨g - f, by omega⟩
  clear hg
  induction k with
  | zero => rfl
  | succ k ih =>
    rw [show f + (k + 1) = (f + k) + 1 from rfl,
      linLoop_fuel_succ m (f + k) o v c (by omega), ih]

theorem linLoop_exact (m : Mapping) : ∀ (n f : Nat) (o v : List String) (c : String),
    n + 1 ≤ f →
    walk m (n + 1) (succNode m c) = walk m n (succNode m c) →
    (∀ x ∈ walk m n (succNode m c), x ∉ v) →
    (walk m n (succNode m c)).Nodup →
    linLoop m f o v c
      = o ++ (walk m n (succNode m c)).filter (fun i => hasMsg m i) := by
  intro n
  induction n with
  | zero =>
    intro f o v c _ hw _ _
    cases hs : succNode m c with
    | none => simp [linLoop_break m c hs, walk]
    | some nx =>
      rw [hs] at hw
      exact absurd hw (by simp [walk])
  | succ n ih =>
    intro f o v c hf hw hvv hnd
    cases hs : succNode m c with
    | none => simp [linLoop_break m c hs, walk]
    | some nx =>
      rw [hs] at hw hvv hnd
      have hw2 : walk m (n + 2) (some nx) = walk m (n + 1) (some nx) := hw
      rw [show walk m (n + 2) (some nx) = nx :: walk m (n + 1) (succNode m nx) from rfl,
        show walk m (n + 1) (some nx) = nx :: walk m n (succNode m nx) from rfl] at hw2
      have hw' : walk m (n + 1) (succNode m nx) = walk m n (succNode m nx) := by
        injection hw2
      rw [show walk m (n + 1) (some nx) = nx :: walk m n (succNode m nx) from rfl] at hvv hnd ⊢
      simp only [List.nodup_cons] at hnd
      have hnxv : nx ∉ v := hvv nx (by simp)
      have hv' : v.contains nx = false := by simpa using hnxv
      obtain ⟨hc, nd, rest, hm, hch⟩ := succNode_some_inv m c nx hs
      obtain ⟨f', rfl⟩ : ∃ f', f = f' + 1 := ⟨f - 1, by omega⟩
      rw [linLoop_step m f' o v c nx nd rest hc hm hch hv']
      have hrec := ih f' (if hasMsg m nx then o ++ [nx] else o) (nx :: v) nx
        (by omega) hw'
        (by
          intro x hx
          simp only [List.mem_cons]
          push_neg
          exact ⟨fun he => hnd.1 (he ▸ hx), hvv x (List.mem_cons_of_mem _ hx)⟩)
        hnd.2
      rw [hrec, List.filter_cons]
      cases hmsg : hasMsg m nx <;> simp [hmsg]

theorem walk_extend (m : Mapping) : ∀ (n : Nat) (c : Option String),
    ∃ t, walk m n c ++ t = walk m (n + 1) c := by
  intro n
  induction n with
  | zero => intro c; exact ⟨walk m 1 c, by simp [walk]⟩
  | succ n ih =>
    intro c
    cases c with
    | none => exact ⟨[], by simp [walk]⟩
    | some x =>
      obtain ⟨t, ht⟩ := ih (succNode m x)
      refine ⟨t, ?_⟩
      rw [show walk m (n + 1) (some x) = x :: walk m n (succNode m x) from rfl,
        show walk m (n + 1 + 1) (some x) = x :: walk m (n + 1) (succNode m x) from rfl,
        List.cons_append, ht]

theorem walk_extend_many (m : Mapping) (n k : Nat) (c : Option String) :
    ∃ t, walk m n c ++ t = walk m (n + k) c := by
  induction k with
  | zero => exact ⟨[], by simp⟩
  | succ k ih =>
    obtain ⟨t, ht⟩ := ih
    obtain ⟨t', ht'⟩ := walk_extend m (n + k) c
    refine ⟨t ++ t', ?_⟩
    rw [← List.append_assoc, ht, ht']
    rfl

theorem chronOrder_none (m : Mapping) (h : resolveStart m = none) (F : Nat) :
    chronologicalOrderFuel m F = [] := by
  cases hroot : findRootId m with
  | none => simp [chronologicalOrderFuel, hroot]
  | some root =>
    simp only [resolveStart, hroot] at h
    simp only [chronologicalOrderFuel, hroot]
    by_cases hccr : (root == "client-created-root") = true
    · rw [if_pos hccr] at h ⊢
      cases hm : mget m root with
      | none => simp only [hm]
      | some nd =>
        simp only [hm] at h ⊢
        cases hch : nd.children with
        | nil => simp only [hch]
        | cons c0 rest => simp only [hch] at h; simp at h
    · rw [if_neg hccr] at h
      exact absurd h (by simp)

theorem chronOrder_some (m : Mapping) (s : String) (h : resolveStart m = some s) :
    ∃ v₀ : List String, (∀ x ∈ v₀, x = s) ∧
      ∀ F, chronologicalOrderFuel m F
        = linLoop m F (if hasMsg m s then [s] else []) v₀ s := by
  cases hroot : findRootId m with
  | none => simp [resolveStart, hroot] at h
  | some root =>
    simp only [resolveStart, hroot] at h
    by_cases hccr : (root == "client-created-root") = true
    · rw [if_pos hccr] at h
      cases hm : mget m root with
      | none => simp only [hm] at h; exact Option.noConfusion h
      | some nd =>
        simp only [hm] at h
        cases hch : nd.children with
        | nil => simp only [hch] at h; simp at h
        | cons c0 rest =>
          simp only [hch, List.head?_cons, Option.some.injEq] at h
          subst h
          refine ⟨if hasMsg m c0 then [c0] else [], ?_, ?_⟩
          · intro x hx
            cases hmsg : hasMsg m c0 <;> rw [hmsg] at hx <;> simpa using hx
          · intro F
            simp only [chronologicalOrderFuel, hroot]
            rw [if_pos hccr]
            simp only [hm, hch]
    · rw [if_neg hccr] at h
      simp only [Option.some.injEq] at h
      subst h
      refine ⟨[], by simp, ?_⟩
      intro F
      simp only [chronologicalOrderFuel, hroot]
      rw [if_neg hccr]

/-! ## Claim C6: cycle safety (termination and prefix form) -/

/-- C6: the linearizer terminates on every mapping, cyclic ones
included — the loop's result is already stable at fuel
`|mapping| + 2`, so adding any further fuel leaves
`get_message_chronological_order` unchanged — and the returned finite
sequence is the message-bearing restriction of a finite prefix of the
first-children walk from the resolved start node (and stays a prefix
of every longer walk). -/
theorem claim_C6_cycle_safety (m : Mapping) :
    (∀ k : Nat, chronologicalOrderFuel m (m.length + 2 + k)
        = get_message_chronological_order m) ∧
    ((resolveStart m = none ∧ get_message_chronological_order m = []) ∨
      (∃ s n, resolveStart m = some s ∧
        get_message_chronological_order m
          = (walk m n (some s)).filter (fun i => hasMsg m i) ∧
        ∀ k, ∃ t, get_message_chronological_order m ++ t
            = (walk m (n + k) (some s)).filter (fun i => hasMsg m i))) := by
  have hbound : ∀ v₀ : List String, freshBound m v₀ ≤ m.length + 2 := by
    intro v₀
    unfold freshBound
    have h1 : ((mkeys m).filter (fun k => !(v₀.contains k))).length ≤ (mkeys m).length :=
      List.length_filter_le _ _
    have h2 : (mkeys m).length = m.length := by simp [mkeys]
    omega
  constructor
  · intro k
    cases hroot : resolveStart m with
    | none =>
      rw [chronOrder_none m hroot, show get_message_chronological_order m
          = chronologicalOrderFuel m (m.length + 2) from rfl, chronOrder_none m hroot]
    | some s =>
      obtain ⟨v₀, -, horder⟩ := chronOrder_some m s hroot
      rw [horder, show get_message_chronological_order m
          = chronologicalOrderFuel m (m.length + 2) from rfl, horder]
      exact linLoop_fuel_ge m (m.length + 2) (m.length + 2 + k) _ v₀ s (hbound v₀)
        (by omega)
  · cases hroot : resolveStart m with
    | none =>
      exact Or.inl ⟨rfl, by
        rw [show get_message_chronological_order m
            = chronologicalOrderFuel m (m.length + 2) from rfl, chronOrder_none m hroot]⟩
    | some s =>
      obtain ⟨v₀, -, horder⟩ := chronOrder_some m s hroot
      obtain ⟨n', hn'⟩ := linLoop_walk m (m.length + 2) (if hasMsg m s then [s] else []) v₀ s
      refine Or.inr ⟨s, n' + 1, rfl, ?_, ?_⟩
      · rw [show get_message_chronological_order m
            = chronologicalOrderFuel m (m.length + 2) from rfl, horder, hn']
        rw [show walk m (n' + 1) (some s) = s :: walk m n' (succNode m s) from rfl,
          List.filter_cons]
        cases hmsg : hasMsg m s <;> simp [hmsg]
      · intro k
        obtain ⟨t, ht⟩ := walk_extend_many m (n' + 1) k (some s)
        refine ⟨t.filter (fun i => hasMsg m i), ?_⟩
        rw [show get_message_chronological_order m
            = chronologicalOrderFuel m (m.length + 2) from rfl, horder, hn']
        rw [← ht]
        rw [show walk m (n' + 1) (some s) = s :: walk m n' (succNode m s) from rfl]
        rw [List.filter_append, List.filter_cons]
        cases hmsg : hasMsg m s <;> simp [hmsg]

/-! ## Claim C5: linearizer output shape

The no-duplicates part of the claim is false on cyclic data: when the
root is found by the no-parent fallback (no `client-created-root`
node), line 81 appends it to the output without entering it into the
visited set, so a `children` cycle leading back to the root appends it
a second time.  `cycleMap` (`A → B → A`) linearizes to `[A, B, A]`. -/

/-- Counterexample to C5 as stated: on the cyclic `cycleMap` the
linearizer output contains the resolved root "A" twice. -/
theorem claim_C5_counterexample :
    get_message_chronological_order cycleMap = ["A", "B", "A"] ∧
    ¬ (get_message_chronological_order cycleMap).Nodup :=
  ⟨by rfl, by decide⟩

/-- C5 amended: the linearizer output contains only IDs of
message-bearing nodes; every ID occurs at most twice, and every ID
other than the resolved start node at most once (only the start node
can be duplicated, when a cycle in the children links returns to it);
and for a well-formed tree — one whose first-children walk from the
resolved start terminates without revisiting a node — the output is
exactly the message-bearing restriction of that walk, hence
duplicate-free with length the number of message-bearing nodes on the
path. -/
theorem claim_C5_amended (m : Mapping) :
    (∀ x ∈ get_message_chronological_order m, hasMsg m x = true) ∧
    (∀ x : String, (get_message_chronological_order m).count x ≤ 2) ∧
    (∀ x : String, resolveStart m ≠ some x →
      (get_message_chronological_order m).count x ≤ 1) ∧
    (∀ s n, resolveStart m = some s →
      walk m (n + 1) (some s) = walk m n (some s) →
      (walk m n (some s)).Nodup →
      get_message_chronological_order m
        = (walk m n (some s)).filter (fun i => hasMsg m i) ∧
      (get_message_chronological_order m).Nodup) := by
  cases hroot : resolveStart m with
  | none =>
    have hempty : get_message_chronological_order m = [] := by
      rw [show get_message_chronological_order m
          = chronologicalOrderFuel m (m.length + 2) from rfl]
      exact chronOrder_none m hroot _
    refine ⟨?_, ?_, ?_, ?_⟩
    · intro x hx; rw [hempty] at hx; simp at hx
    · intro x; rw [hempty]; simp
    · intro x _; rw [hempty]; simp
    · intro s n hs; exact absurd hs (by simp)
  | some s =>
    obtain ⟨v₀, hv₀, horder⟩ := chronOrder_some m s hroot
    have horder' : get_message_chronological_order m
        = linLoop m (m.length + 2) (if hasMsg m s then [s] else []) v₀ s := horder _
    obtain ⟨tail, htail, hnd, hprop⟩ :=
      linLoop_emits m (m.length + 2) (if hasMsg m s then [s] else []) v₀ s
    have horder2 : get_message_chronological_order m
        = (if hasMsg m s then [s] else []) ++ tail := by rw [horder', htail]
    refine ⟨?_, ?_, ?_, ?_⟩
    · intro x hx
      rw [horder2] at hx
      rcases List.mem_append.mp hx with hx | hx
      · cases hmsg : hasMsg m s with
        | true =>
          rw [hmsg] at hx
          simp only [if_true, List.mem_singleton] at hx
          subst hx
          exact hmsg
        | false => rw [hmsg] at hx; simp at hx
      · exact (hprop x hx).1
    · intro x
      rw [horder2, List.count_append]
      have h1 : (if hasMsg m s then [s] else []).count x ≤ 1 := by
        cases hmsg : hasMsg m s
        · simp
        · simp only [if_true, List.count_singleton']
          split <;> omega
      have h2 : tail.count x ≤ 1 := List.nodup_iff_count_le_one.mp hnd x
      omega
    · intro x hx
      rw [horder2, List.count_append]
      have hxs : ¬(s = x) := fun he => hx (by rw [he])
      have h1 : (if hasMsg m s then [s] else []).count x = 0 := by
        cases hmsg : hasMsg m s
        · simp
        · simp only [if_true, List.count_singleton']
          exact if_neg hxs
      have h2 : tail.count x ≤ 1 := List.nodup_iff_count_le_one.mp hnd x
      omega
    · intro s' n hs' hw hnd'
      injection hs' with hs'
      subst hs'
      cases n with
      | zero => simp [walk] at hw
      | succ n'' =>
        have hw' : walk m (n'' + 1) (succNode m s) = walk m n'' (succNode m s) := by
          have hthis := hw
          rw [show walk m (n'' + 1 + 1) (some s)
              = s :: walk m (n'' + 1) (succNode m s) from rfl,
            show walk m (n'' + 1) (some s)
              = s :: walk m n'' (succNode m s) from rfl] at hthis
          injection hthis
        rw [show walk m (n'' + 1) (some s)
            = s :: walk m n'' (succNode m s) from rfl] at hnd' ⊢
        simp only [List.nodup_cons] at hnd'
        have hb : freshBound m v₀ ≤ m.length + 2 := by
          unfold freshBound
          have h1 := List.length_filter_le (fun k => !(v₀.contains k)) (mkeys m)
          have h2 : (mkeys m).length = m.length := by simp [mkeys]
          omega
        have hFge : n'' + 2 ≤ max (m.length + 2) (n'' + 2) := le_max_right _ _
        have hlin : get_message_chronological_order m
            = linLoop m (max (m.length + 2) (n'' + 2))
                (if hasMsg m s then [s] else []) v₀ s := by
          rw [horder']
          exact (linLoop_fuel_ge m (m.length + 2) (max (m.length + 2) (n'' + 2))
            _ v₀ s hb (le_max_left _ _)).symm
        have hexact := linLoop_exact m n'' (max (m.length + 2) (n'' + 2))
          (if hasMsg m s then [s] else []) v₀ s (by omega) hw'
          (by
            intro x hxw hxv
            exact hnd'.1 ((hv₀ x hxv) ▸ hxw))
          hnd'.2
        constructor
        · rw [hlin, hexact, List.filter_cons]
          cases hmsg : hasMsg m s <;> simp [hmsg]
        · rw [hlin, hexact]
          have hndf : (List.filter (fun i => hasMsg m i)
              (walk m n'' (succNode m s))).Nodup := hnd'.2.filter _
          cases hmsg : hasMsg m s with
          | false => simpa [hmsg] using hndf
          | true =>
            simp only [if_true, List.singleton_append, List.nodup_cons]
            exact ⟨fun hmem => hnd'.1 (List.mem_of_mem_filter hmem), hndf⟩

/-- Witness for the amended C5: `treeMap`'s walk from the resolved
start "u1" is finite and duplicate-free, so the output is exactly the
message-bearing walk `["u1", "a1"]`, duplicate-free. -/
theorem claim_C5_witness :
    resolveStart treeMap = some "u1" ∧
    walk treeMap (2 + 1) (some "u1") = walk treeMap 2 (some "u1") ∧
    (walk treeMap 2 (some "u1")).Nodup ∧
    (get_message_chronological_order treeMap
        = (walk treeMap 2 (some "u1")).filter (fun i => hasMsg treeMap i) ∧
      (get_message_chronological_order treeMap).Nodup) :=
  ⟨by rfl, by rfl, by decide,
    (claim_C5_amended treeMap).2.2.2 "u1" 2 (by rfl) (by rfl) (by decide)⟩

end ChatAnalysis
